import Mathlib

set_option maxRecDepth 40000

/-!
Verification development for the `libiot` repository.

The definitions below are a shallow embedding of the parts of the code that
the spec's claims talk about:

* `src/ota/mod.rs` — the `Ota` driver (`run_http`), `parse_content_range`
  and the private `Crc32` hasher;
* `src/network/application/mqtt/client.rs` — `encode_remaining_length`,
  the remaining-length decode loop inside `Client::poll`, and
  `Client::publish`;
* the `Storage + BlockingErase` contract (`src/storage/mod.rs`, as
  exercised by the repository's `RamStorage` test double): `write` succeeds
  iff the range is in bounds and replaces the addressed bytes, `erase` is
  end-exclusive and sets the erased bytes to `0xFF`.

Machine integers are modelled as `Nat` with explicit `% 2 ^ 32` / bounds
checks where the Rust code uses checked or wrapping arithmetic; `usize` is
taken to be 64 bits wide. Bytes are `Nat` values (the code only ever
produces values `< 256`). Fallible Rust operations become `Option` /
`Except` values, and the transport / storage collaborators are oracles
passed in as explicit arguments.
-/

/-- Bytes are modelled as naturals; the embedded code only produces values below 256. -/
abbrev Byte := Nat

/-- Network error taxonomy from `src/network/error.rs`. -/
inductive NetError
  | NotOpen
  | WriteError
  | ReadError
  | ConnectionRefused
  | Timeout
  | ConnectionClosed
  | InvalidAddress
  | ProtocolError
deriving DecidableEq

/-- Storage error taxonomy from `src/storage/error.rs`. -/
inductive StorageError
  | OutOfBounds
  | WriteError
  | ReadError
  | EraseError
  | NotInitialized
  | CardError
  | StorageFault
deriving DecidableEq

/-- OTA error type from `src/ota/mod.rs` (`enum Error`). -/
inductive OtaError
  | Network : NetError → OtaError
  | Storage : StorageError → OtaError
  | InvalidConfig
  | VerifyFailed
  | Canceled
  | Protocol
deriving DecidableEq

/-- OTA state machine states from `src/ota/mod.rs` (`enum State`). -/
inductive OtaState
  | Idle
  | Erasing
  | Downloading
  | Verifying
  | Finalizing
  | Completed
  | Failed
  | Canceled
deriving DecidableEq

/-- The lowercase state string used by `MqttProgress::publish_progress`
(`src/ota/mod.rs`, the `state_str` match). -/
def stateToStr : OtaState → List Char
  | .Idle => "idle".toList
  | .Erasing => "erasing".toList
  | .Downloading => "downloading".toList
  | .Verifying => "verifying".toList
  | .Finalizing => "finalizing".toList
  | .Completed => "completed".toList
  | .Failed => "failed".toList
  | .Canceled => "canceled".toList

instance instDecEqExcept {ε α : Type} [DecidableEq ε] [DecidableEq α] :
    DecidableEq (Except ε α) := fun a b =>
  match a, b with
  | .error x, .error y =>
    if h : x = y then .isTrue (by rw [h]) else .isFalse (fun hc => h (Except.error.inj hc))
  | .ok x, .ok y =>
    if h : x = y then .isTrue (by rw [h]) else .isFalse (fun hc => h (Except.ok.inj hc))
  | .error _, .ok _ => .isFalse (fun hc => Except.noConfusion hc)
  | .ok _, .error _ => .isFalse (fun hc => Except.noConfusion hc)

/-! ## Rust string helpers

`parse_content_range` works on `&str`. Strings are modelled as `List Char`;
the helpers below mirror the exact `str` methods the code calls. `str::trim`
removes Unicode whitespace from both ends; the claims only exercise ASCII
input, and the model covers the ASCII whitespace characters. -/

/-- Whitespace predicate used by the model of `str::trim` (ASCII fragment of
Rust's `char::is_whitespace`). -/
def isRustWhitespace (c : Char) : Bool :=
  c = ' ' || c = '\t' || c = '\n' || c = '\x0d' || c = '\x0b' || c = '\x0c'

/-- Model of `str::trim`. -/
def rustTrim (s : List Char) : List Char :=
  ((s.dropWhile isRustWhitespace).reverse.dropWhile isRustWhitespace).reverse

/-- ASCII lowercasing of one character (`u8::to_ascii_lowercase`). -/
def asciiLowerChar (c : Char) : Char :=
  if 'A' ≤ c ∧ c ≤ 'Z' then Char.ofNat (c.toNat + 32) else c

/-- Model of `str::eq_ignore_ascii_case`. -/
def eqIgnoreAsciiCase (a b : List Char) : Bool :=
  a.map asciiLowerChar = b.map asciiLowerChar

/-- Model of `str::split(c)`: the full list of separated pieces, in order.
The code only consumes the first one or two pieces of the iterator. -/
def splitOnChar (c : Char) : List Char → List (List Char)
  | [] => [[]]
  | x :: xs =>
    match splitOnChar c xs with
    | [] => [[]]
    | h :: t => if x = c then [] :: h :: t else (x :: h) :: t

/-- Model of `str::parse::<usize>()` (64-bit `usize`): an optional leading
plus sign, then one or more ASCII digits, rejecting values `≥ 2 ^ 64`. -/
def parseUsize (s : List Char) : Option Nat :=
  let digits := match s with
    | '+' :: rest => rest
    | other => other
  if digits = [] then none
  else if digits.all (fun c => c.isDigit) then
    let n := digits.foldl (fun a c => a * 10 + (c.toNat - 48)) 0
    if n < 2 ^ 64 then some n else none
  else none

/-- Embedding of `parse_content_range` (`src/ota/mod.rs`).
Parses `"bytes start-end/total"` (or total `"*"`), returning
`(start, end, total?)` exactly when the Rust function returns `Some`. -/
def parseContentRange (value : List Char) : Option (Nat × Nat × Option Nat) :=
  let v := rustTrim value
  let lower := v.map asciiLowerChar
  if lower.take 5 = "bytes".toList then
    -- the code re-slices the original string after the 5 matched bytes
    let vRest := rustTrim (v.drop 5)
    let parts := splitOnChar '/' vRest
    match parts.get? 1 with
    | none => none
    | some totalRaw =>
      let rangePart := rustTrim (parts.headD [])
      let totalPart := rustTrim totalRaw
      let se := splitOnChar '-' rangePart
      match se.get? 1 with
      | none => none
      | some endRaw =>
        match parseUsize (rustTrim (se.headD [])), parseUsize (rustTrim endRaw) with
        | some s, some e =>
          if e < s then none
          else if totalPart = ['*'] then some (s, e, none)
          else
            match parseUsize totalPart with
            | none => none
            | some t => if s ≥ t ∨ e ≥ t then none else some (s, e, some t)
        | _, _ => none
  else none

/-! ## CRC-32 engine (`struct Crc32` in `src/ota/mod.rs`) -/

/-- One shift-and-conditionally-xor step of the table generation loop. -/
def crcStep (c : Nat) : Nat :=
  if c % 2 = 1 then (c / 2) ^^^ 0xEDB88320 else c / 2

/-- Entry `i` of the 256-entry table built by `Crc32::new` (eight `crcStep`s). -/
def crcTable (i : Nat) : Nat :=
  crcStep (crcStep (crcStep (crcStep (crcStep (crcStep (crcStep (crcStep i)))))))

/-- Initial CRC state (`value: 0xFFFF_FFFF`). -/
def crcInit : Nat := 0xFFFFFFFF

/-- One byte of `Crc32::update`: `value = table[(value ^ b) & 0xFF] ^ (value >> 8)`. -/
def crcUpdateByte (v : Nat) (b : Byte) : Nat :=
  crcTable ((v ^^^ (b % 256)) % 256) ^^^ (v / 256)

/-- `Crc32::update` over a byte run. -/
def crcUpdate (v : Nat) (data : List Byte) : Nat :=
  data.foldl crcUpdateByte v

/-- `Crc32::finalize`: xor with `0xFFFF_FFFF`. -/
def crcFinalize (v : Nat) : Nat := v ^^^ 0xFFFFFFFF

/-! ## MQTT remaining-length codec (`src/network/application/mqtt/client.rs`) -/

/-- Embedding of `encode_remaining_length`. The buffer is a
`heapless::Vec<u8, 5>`; `is_full` is `length = 5` (the vector can never
exceed its capacity, so `≥` and `=` agree on reachable values). Returns the
final buffer contents, or `none` where the Rust function returns `Err(())`. -/
def encode_remaining_length (buf : List Byte) (len : Nat) : Option (List Byte) :=
  if buf.length ≥ 5 then none
  else
    let byte := len % 128
    if h : len / 128 = 0 then some (buf ++ [byte])
    else encode_remaining_length (buf ++ [byte + 128]) (len / 128)
termination_by len
decreasing_by
  exact Nat.div_lt_self (Nat.pos_of_ne_zero (fun hz => h (by simp [hz]))) (by omega)

/-- Outcome of the remaining-length decode loop inside `Client::poll`. -/
inductive RemLenOutcome
  | ok (value : Nat) (rest : List Byte)
  | readErr
  | panicOOB
deriving DecidableEq

/-- Embedding of the remaining-length decode loop in `Client::poll`
(lines 732–746): `remaining_len_buf` is a `[u8; 4]`; byte `i` is read with the
slice `remaining_len_buf[i..i + 1]`, which *panics* when `i = 4` — modelled by
`panicOOB`, checked before any read, exactly where the Rust slicing occurs.
The byte stream is the sequence the transport delivers; an exhausted stream
stands for a failing `read` (`readErr`), which no claim exercises. -/
def decodeRemLenLoop : List Byte → Nat → Nat → Nat → RemLenOutcome
  | [], i, _, _ => if i ≥ 4 then .panicOOB else .readErr
  | b0 :: rest, i, acc, mult =>
    if i ≥ 4 then .panicOOB
    else
      let b := b0 % 256
      let acc2 := acc + (b % 128) * mult
      if b ≥ 128 then decodeRemLenLoop rest (i + 1) acc2 (mult * 128)
      else .ok acc2 rest

/-- MQTT PUBLISH packet type byte (`const PUBLISH`). -/
def PUBLISH : Nat := 0x30

/-- Outcome of the header phase of `Client::poll` (header byte plus
remaining-length field), the fragment the claims are about. -/
inductive PollOutcome
  | noMessage
  | withRemLen (remLen : Nat) (rest : List Byte)
  | err (e : NetError)
  | panicOOB
deriving DecidableEq

/-- Embedding of `Client::poll` up to and including the remaining-length
decode: read one header byte (an empty stream is a 0-byte read, `Ok(None)`);
if its high nibble is PUBLISH, run the decode loop with
`remaining_len = 0`, `multiplier = 1`, `i = 0`; other packet types yield
`Ok(None)`. -/
def pollHeaderPhase (stream : List Byte) : PollOutcome :=
  match stream with
  | [] => .noMessage
  | b :: rest =>
    if (b % 256) &&& 0xF0 = PUBLISH then
      match decodeRemLenLoop rest 0 0 1 with
      | .ok v r => .withRemLen v r
      | .readErr => .err .ReadError
      | .panicOOB => .panicOOB
    else .noMessage

/-- Minimum number of bytes of the MQTT variable-length encoding of `v`
(values `< 2 ^ 28` fit in at most four bytes). -/
def minRemLenBytes (v : Nat) : Nat :=
  if v < 128 then 1
  else if v < 16384 then 2
  else if v < 2097152 then 3
  else 4

/-- Little-endian base-128 digit list with continuation bits: the byte
sequence `encode_remaining_length` emits for `v` (helper for proofs). -/
def base128Digits (v : Nat) : List Byte :=
  if h : v < 128 then [v]
  else (v % 128 + 128) :: base128Digits (v / 128)
termination_by v
decreasing_by
  exact Nat.div_lt_self (by omega) (by omega)

/-! ## MQTT publish (`Client::publish`) -/

/-- QoS levels from the MQTT client. -/
inductive QoS
  | AtMostOnce
  | AtLeastOnce
  | ExactlyOnce
deriving DecidableEq

/-- The discriminant of a QoS value (`qos as u8`). -/
def QoS.toNat : QoS → Nat
  | .AtMostOnce => 0
  | .AtLeastOnce => 1
  | .ExactlyOnce => 2

/-- Outcome of `Client::publish`. `panicOverflow` marks an `.unwrap()` on a
failed `heapless` push/extend (the process panics); `writeErr` a failed
transport write. -/
inductive PublishOutcome
  | ok (fixedHeader : List Byte) (packet : List Byte)
  | panicOverflow
  | writeErr
deriving DecidableEq

/-- Big-endian bytes of `(n as u16).to_be_bytes()`. -/
def u16BeBytes (n : Nat) : List Byte :=
  [n % 65536 / 256, n % 256]

/-- Embedding of `Client::publish` (lines 499–531). The packet buffer is a
`heapless::Vec<u8, 1024>`; every `extend_from_slice` / `push` result is
`.unwrap()`ed by the code, so any overflow panics (`panicOverflow`).
`writeOk` is the transport oracle for the subsequent writes. -/
def mqttPublishModel (topic : List Byte) (payload : List Byte) (qos : QoS)
    (writeOk : Bool) : PublishOutcome :=
  let p1 := u16BeBytes topic.length
  if p1.length > 1024 then .panicOverflow
  else
    let p2 := p1 ++ topic
    if p2.length > 1024 then .panicOverflow
    else
      let p3 := p2 ++ payload
      if p3.length > 1024 then .panicOverflow
      else
        let flags := PUBLISH |||
          (if qos = .AtLeastOnce ∨ qos = .ExactlyOnce then qos.toNat <<< 1 else 0)
        match encode_remaining_length [flags] p3.length with
        | none => .panicOverflow
        | some fh => if writeOk then .ok fh p3 else .writeErr

/-! ## OTA driver (`src/ota/mod.rs`)

The environment of one `run_http` call is made explicit:

* the HTTP client is an oracle `http : Nat → Except NetError HttpResponse`
  giving the result of the k-th `http.request(..)` call of the run
  (partial-content responses, full-body responses and transport errors are
  all expressible);
* the storage is a byte list (`capacity = length`) obeying the
  `Storage + BlockingErase` contract, with `eraseOk` / `writeOk` oracles
  injecting device faults on top of the contract's bounds checks;
* the optional MQTT progress publisher is a flag plus an output trace of
  the `Progress` values passed to `publish_progress` (its own failures are
  swallowed by `run_http`, so only the attempts are observable);
* storage calls are recorded in an operation trace `ops`, in call order. -/

/-- HTTP header as produced by the HTTP client (name and value strings). -/
structure HttpHeader where
  name : List Char
  value : List Char
deriving DecidableEq

/-- HTTP response as consumed by `run_http` (status, headers, body). -/
structure HttpResponse where
  status_code : Nat
  headers : List HttpHeader
  body : List Byte
deriving DecidableEq

/-- OTA configuration (`struct Config`). -/
structure OtaConfig where
  chunk_size : Nat
  erase_before_write : Bool
  verify_crc32 : Bool
deriving DecidableEq

/-- HTTP firmware source (`struct HttpSource`). -/
structure HttpSource where
  host : List Char
  path : List Char
  size : Nat
  crc32 : Option Nat
deriving DecidableEq

/-- The OTA driver's own fields (`struct Ota`). -/
structure Ota where
  cfg : OtaConfig
  state : OtaState
  canceled : Bool
deriving DecidableEq

/-- `Ota::new`: rejects `chunk_size == 0 || chunk_size > 2048`. -/
def Ota.new (cfg : OtaConfig) : Except OtaError Ota :=
  if cfg.chunk_size = 0 ∨ cfg.chunk_size > 2048 then .error .InvalidConfig
  else .ok ⟨cfg, .Idle, false⟩

/-- `Ota::cancel` latches the flag. -/
def Ota.cancel (o : Ota) : Ota := { o with canceled := true }

/-- Progress record passed to `MqttProgress::publish_progress`. -/
structure OtaProgress where
  bytes_total : Nat
  bytes_downloaded : Nat
  state : OtaState
deriving DecidableEq

/-- State of the OTA-persistent record.
Modelled from the spec: the record itself (state/version/checksum in a
platform slot) has no implementation under `src/`; only the spec's §3
"OTA-persistent record" describes it. -/
inductive RecordState
  | Idle
  | Pending
  | Success
  | Failed
deriving DecidableEq

/-- Modelled from the spec: the OTA-persistent record (state, version of the
inactive partition, checksum). No code under `src/` reads or writes such a
record — in particular `Ota::run_http` contains no reference to one — so the
embedding threads it through `run_http` unchanged. -/
structure OtaRecord where
  state : RecordState
  version : Nat
  checksum : Nat
deriving DecidableEq

/-- A storage call made by the driver, in call order
(`erase(from, to)` end-exclusive / `write(offset, bytes)`). -/
inductive StorageOp
  | eraseOp (efrom : Nat) (eto : Nat)
  | writeOp (off : Nat) (data : List Byte)
deriving DecidableEq

/-- Effect of a successful contract `write`: replace
`store[off .. off + data.length)` with `data`. -/
def writeBytesList (store : List Byte) (off : Nat) (data : List Byte) : List Byte :=
  store.take off ++ data ++ store.drop (off + data.length)

/-- Effect of a successful contract `erase` (end-exclusive, bytes become
`0xFF`); only evaluated under `efrom ≤ eto ≤ store.length`. -/
def eraseBytesList (store : List Byte) (efrom : Nat) (eto : Nat) : List Byte :=
  store.take efrom ++ List.replicate (eto - efrom) 0xFF ++ store.drop eto

/-- The byte segment `store[off .. off + n)`. -/
def seg (store : List Byte) (off : Nat) (n : Nat) : List Byte :=
  (store.drop off).take n

/-- Environment (collaborator oracles) of one `run_http` call. -/
structure RunEnv where
  http : Nat → Except NetError HttpResponse
  eraseOk : Bool
  writeOk : Nat → Bool
  mqttAttached : Bool

/-- The per-chunk retry loop (three attempts, immediate retry, surfacing the
last error). Returns the outcome together with the next request index. -/
def requestWithRetry (http : Nat → Except NetError HttpResponse) (k : Nat) :
    Except NetError HttpResponse × Nat :=
  match http k with
  | .ok r => (.ok r, k + 1)
  | .error _ =>
    match http (k + 1) with
    | .ok r => (.ok r, k + 2)
    | .error _ =>
      match http (k + 2) with
      | .ok r => (.ok r, k + 3)
      | .error e => (.error e, k + 3)

/-- The `Content-Range` header scan of a 206 response (lines 305–316):
fold over all headers; every header whose name equals `Content-Range`
(ASCII-case-insensitively) and whose value parses contributes — the ok flag
is set if any parsed `(start, end)` matches the request, and `header_total`
keeps the total of the last header that parsed. -/
def contentRangeScan (headers : List HttpHeader) (start endv : Nat) :
    Bool × Option Nat :=
  headers.foldl
    (fun acc h =>
      if eqIgnoreAsciiCase h.name ("Content-Range".toList) then
        match parseContentRange h.value with
        | some (rs, re, total) => (acc.1 || (rs == start && re == endv), total)
        | none => acc
      else acc)
    (false, none)

/-- The chunk the driver keeps: the body limited to the requested length
(line 336, `&resp.body[..min(resp.body.len(), len)]`). -/
def clampChunk (resp : HttpResponse) (len : Nat) : List Byte :=
  resp.body.take (min resp.body.length len)

/-- The status/`Content-Range` part of the per-chunk response validation
(the `match resp.status_code` of lines 302–333): status must be exactly 206,
some `Content-Range` header must parse with the requested `(start, end)`,
and the total kept from the last parsed header must equal the firmware size
when numeric. -/
def statusCheck206 (resp : HttpResponse) (start endv size : Nat) :
    Except OtaError Unit :=
  if resp.status_code = 206 then
    if (contentRangeScan resp.headers start endv).1 then
      match (contentRangeScan resp.headers start endv).2 with
      | some t => if t ≠ size then .error (.Network .ProtocolError) else .ok ()
      | none => .ok ()
    else .error (.Network .ProtocolError)
  else .error (.Network .ProtocolError)

/-- Response validation for one chunk (lines 302–345): the status /
`Content-Range` checks, then the clamped body must be non-empty
(`ReadError` otherwise) and of exactly the requested length
(`ProtocolError` otherwise). Returns the chunk that gets written. -/
def validateChunkResponse (resp : HttpResponse) (start endv len size : Nat) :
    Except OtaError (List Byte) :=
  match statusCheck206 resp start endv size with
  | .error e => .error e
  | .ok _ =>
    if (clampChunk resp len).length = 0 then .error (.Network .ReadError)
    else if resp.status_code = 206 ∧ (clampChunk resp len).length ≠ len then
      .error (.Network .ProtocolError)
    else .ok (clampChunk resp len)

/-- The absolute-offset arithmetic of lines 348–368: `start` must fit `u32`,
`base_offset + start` must not overflow `u32`, `base + start + chunk_len`
must not overflow `usize` nor exceed `end_offset`. Every failure here sets
the engine state to Failed in the code. -/
def checkOffsets (base start chunkLen endOffUsize : Nat) : Except OtaError Nat :=
  if start ≥ 2 ^ 32 then .error .InvalidConfig
  else if base + start ≥ 2 ^ 32 then .error .InvalidConfig
  else if base + start + chunkLen ≥ 2 ^ 64 then .error .InvalidConfig
  else if base + start + chunkLen > endOffUsize then .error .InvalidConfig
  else .ok (base + start)

/-- Loop-constant context of the download loop. -/
structure LoopCtx where
  http : Nat → Except NetError HttpResponse
  writeOk : Nat → Bool
  mqttAttached : Bool
  canceled : Bool
  host : List Char
  chunkSize : Nat
  size : Nat
  base : Nat

/-- Result of the download loop. -/
inductive LoopResult
  | failed (e : OtaError) (st : OtaState) (store : List Byte)
      (ops : List StorageOp) (pub : List OtaProgress)
  | done (crc : Nat) (store : List Byte) (ops : List StorageOp)
      (pub : List OtaProgress)
deriving DecidableEq

/-- One download-loop iteration either halts the run or continues. -/
inductive StepResult
  | halt (r : LoopResult)
  | next (downloaded reqIdx writeIdx crc : Nat) (store : List Byte)
      (ops : List StorageOp) (pub : List OtaProgress)
deriving DecidableEq

/-- UTF-8 byte length of a string (Rust `str::len`). -/
def utf8Len (s : List Char) : Nat :=
  s.foldl (fun a c => a + c.utf8Size) 0

/-- The `Range` header value `"bytes=start-end"` written by `core::fmt::write`. -/
def rangeValueString (start endv : Nat) : List Char :=
  "bytes=".toList ++ (toString start).toList ++ "-".toList ++ (toString endv).toList

/-- The chunk length of the iteration at `downloaded`
(`len = min(chunk_size, size - downloaded)`, line 254). -/
def chunkLen (ctx : LoopCtx) (downloaded : Nat) : Nat :=
  min ctx.chunkSize (ctx.size - downloaded)

/-- The inclusive range end `start + len - 1` (line 256), with the `usize`
wrap-around of the release-mode subtraction modelled exactly. -/
def inclusiveEnd (start len : Nat) : Nat :=
  (start + len + (2 ^ 64 - 1)) % 2 ^ 64

/-- Body of one download-loop iteration (lines 247–390), in source order:
cancellation check; header construction (`Host` value into a `String<256>`,
the range value `bytes=start-end` into a `String<80>` and then a
`String<256>` — each failure is `Error::Protocol` and leaves the engine
state at Downloading); three-attempt request; response validation; offset
checks; `storage.write` (recorded, then contract bounds plus the fault
oracle decide success); CRC/counter update and optional progress publish.
The header-name `try_from`s and the two `headers.push` calls cannot fail
(`"Host"`/`"Range"` fit into `String<64>`, 2 ≤ 16) and are not modelled as
checks. -/
def loopIter (ctx : LoopCtx) (downloaded reqIdx writeIdx crc : Nat)
    (store : List Byte) (ops : List StorageOp) (pub : List OtaProgress) :
    StepResult :=
  if ctx.canceled then .halt (.failed .Canceled .Canceled store ops pub)
  else if utf8Len ctx.host > 256 then
    .halt (.failed .Protocol .Downloading store ops pub)
  else if (rangeValueString downloaded
      (inclusiveEnd downloaded (chunkLen ctx downloaded))).length > 80 then
    .halt (.failed .Protocol .Downloading store ops pub)
  else if (rangeValueString downloaded
      (inclusiveEnd downloaded (chunkLen ctx downloaded))).length > 256 then
    .halt (.failed .Protocol .Downloading store ops pub)
  else
    match requestWithRetry ctx.http reqIdx with
    | (.error e, _) => .halt (.failed (.Network e) .Failed store ops pub)
    | (.ok resp, reqIdx2) =>
      match validateChunkResponse resp downloaded
          (inclusiveEnd downloaded (chunkLen ctx downloaded))
          (chunkLen ctx downloaded) ctx.size with
      | .error e => .halt (.failed e .Failed store ops pub)
      | .ok chunk =>
        match checkOffsets ctx.base downloaded chunk.length
            (ctx.base + ctx.size) with
        | .error e => .halt (.failed e .Failed store ops pub)
        | .ok absOff =>
          if ctx.writeOk writeIdx ∧ absOff + chunk.length ≤ store.length then
            .next (downloaded + chunk.length) reqIdx2 (writeIdx + 1)
              (crcUpdate crc chunk)
              (writeBytesList store absOff chunk)
              (ops ++ [.writeOp absOff chunk])
              (pub ++ (if ctx.mqttAttached then
                [⟨ctx.size, downloaded + chunk.length, .Downloading⟩] else []))
          else
            .halt (.failed (.Storage .WriteError) .Failed store
              (ops ++ [.writeOp absOff chunk]) pub)

/-- The download loop (`while downloaded < source.size`). Structured over a
fuel parameter for a computable embedding; `run_http` supplies
`fuel = source.size`, which always suffices because every continuing
iteration advances `downloaded` by at least one byte
(`downloadLoop_fuel_ge` below shows the fuel value is irrelevant from
`ctx.size - downloaded` upward, so the zero-fuel branch is unreachable
from `runHttpCore`). -/
def downloadLoop (ctx : LoopCtx) :
    Nat → Nat → Nat → Nat → Nat → List Byte → List StorageOp → List OtaProgress →
    LoopResult
  | fuel, downloaded, reqIdx, writeIdx, crc, store, ops, pub =>
    if downloaded < ctx.size then
      match fuel with
      | 0 => .failed (.Network .ProtocolError) .Failed store ops pub
      | fuel' + 1 =>
        match loopIter ctx downloaded reqIdx writeIdx crc store ops pub with
        | .halt r => r
        | .next d2 r2 w2 c2 s2 o2 p2 => downloadLoop ctx fuel' d2 r2 w2 c2 s2 o2 p2
    else .done crc store ops pub

/-- Result of one `run_http` call: the returned value, the final engine
state, the final storage bytes, the storage-call trace, the progress
messages handed to the publisher, and the (untouched) OTA-persistent record. -/
structure CoreResult where
  result : Except OtaError Unit
  state : OtaState
  store : List Byte
  ops : List StorageOp
  published : List OtaProgress
deriving DecidableEq

/-- Success epilogue of `run_http` (lines 411–430): state Finalizing with a
progress message, then state Completed with a progress message, `Ok(())`. -/
def finishOk (size : Nat) (attached : Bool) (store : List Byte)
    (ops : List StorageOp) (pub : List OtaProgress) : CoreResult :=
  let pub2 := pub ++ (if attached then [⟨size, size, .Finalizing⟩] else [])
  let pub3 := pub2 ++ (if attached then [⟨size, size, .Completed⟩] else [])
  ⟨.ok (), .Completed, store, ops, pub3⟩

/-- What `run_http` does after the download loop (lines 392–430): on a loop
failure, surface it; otherwise verify the in-stream CRC against the expected
checksum when `verify_crc32` is set and a checksum was provided (mismatch:
publish a Failed progress message when a publisher is attached, state
Failed, `VerifyFailed`), then the success epilogue. -/
def afterLoop (size : Nat) (attached : Bool) (verify : Bool)
    (crcExpected : Option Nat) : LoopResult → CoreResult
  | .failed e st store ops pub => ⟨.error e, st, store, ops, pub⟩
  | .done crc store ops pub =>
    if verify then
      match crcExpected with
      | some expected =>
        if crcFinalize crc ≠ expected then
          ⟨.error .VerifyFailed, .Failed, store, ops,
            pub ++ (if attached then [⟨size, size, .Failed⟩] else [])⟩
        else finishOk size attached store ops pub
      | none => finishOk size attached store ops pub
    else finishOk size attached store ops pub

/-- The erase phase of `run_http` (lines 230–240): when `erase_before_write`
is set, the state becomes Erasing, the latched cancel flag gets a second
look, and `storage.erase(base_offset, end_offset_u32)` runs —
`end_offset_u32` being the `u32`-truncated `base_offset + size`. A contract
violation or an injected device fault yields Failed / `Storage(EraseError)`.
Returns the storage and operation trace the download loop starts from. -/
def erasePhase (ota : Ota) (store0 : List Byte) (base : Nat)
    (source : HttpSource) (env : RunEnv) :
    Except CoreResult (List Byte × List StorageOp) :=
  if ota.cfg.erase_before_write then
    if ota.canceled then .error ⟨.error .Canceled, .Canceled, store0, [], []⟩
    else if env.eraseOk ∧ base ≤ (base + source.size) % 2 ^ 32 ∧
        (base + source.size) % 2 ^ 32 ≤ store0.length then
      .ok (eraseBytesList store0 base ((base + source.size) % 2 ^ 32),
        [.eraseOp base ((base + source.size) % 2 ^ 32)])
    else
      .error ⟨.error (.Storage .EraseError), .Failed, store0,
        [.eraseOp base ((base + source.size) % 2 ^ 32)], []⟩
  else .ok (store0, [])

/-- Embedding of `Ota::run_http` (lines 192–431) minus the record threading:

* `size == 0` → Failed, `InvalidConfig`;
* `checked_add` overflow of `base_offset + size` (`u64` and 64-bit `usize`
  agree on the condition) → `InvalidConfig` **without touching the state**;
* `end_offset > capacity` → Failed, `InvalidConfig`;
* latched cancel → Canceled before any storage call;
* the erase phase (`erasePhase`), the download loop (`downloadLoop`), and
  the verification / success epilogue (`afterLoop`). -/
def runHttpCore (ota : Ota) (store0 : List Byte) (base : Nat)
    (source : HttpSource) (env : RunEnv) : CoreResult :=
  if source.size = 0 then ⟨.error .InvalidConfig, .Failed, store0, [], []⟩
  else if 2 ^ 64 ≤ base + source.size then
    ⟨.error .InvalidConfig, ota.state, store0, [], []⟩
  else if store0.length < base + source.size then
    ⟨.error .InvalidConfig, .Failed, store0, [], []⟩
  else if ota.canceled then ⟨.error .Canceled, .Canceled, store0, [], []⟩
  else
    match erasePhase ota store0 base source env with
    | .error r => r
    | .ok (store1, ops1) =>
      afterLoop source.size env.mqttAttached ota.cfg.verify_crc32 source.crc32
        (downloadLoop
          ⟨env.http, env.writeOk, env.mqttAttached, ota.canceled,
           source.host, ota.cfg.chunk_size, source.size, base⟩
          source.size 0 0 0 crcInit store1 ops1 [])

/-- A `run_http` call result together with the OTA-persistent record, which
`run_http` never touches (the record is modelled from the spec; no code in
`src/ota/mod.rs` mentions it). -/
structure RunResult where
  result : Except OtaError Unit
  state : OtaState
  store : List Byte
  ops : List StorageOp
  published : List OtaProgress
  record : OtaRecord
deriving DecidableEq

/-- `Ota::run_http` with the (untouched) OTA-persistent record attached. -/
def runHttp (ota : Ota) (store0 : List Byte) (base : Nat) (source : HttpSource)
    (env : RunEnv) (record0 : OtaRecord) : RunResult :=
  let c := runHttpCore ota store0 base source env
  ⟨c.result, c.state, c.store, c.ops, c.published, record0⟩

/-- The write operations of a storage trace, as (offset, data) pairs in
call order. -/
def writeOpsOf (ops : List StorageOp) : List (Nat × List Byte) :=
  ops.filterMap
    (fun op => match op with
      | .writeOp o d => some (o, d)
      | .eraseOp _ _ => none)

/-- The pairs are at consecutive offsets starting at `base` (each write
begins where the previous one ended). -/
def consecutiveFrom (base : Nat) : List (Nat × List Byte) → Prop
  | [] => True
  | q :: rest => q.1 = base ∧ consecutiveFrom (base + q.2.length) rest

/-- The test the `Content-Range` scan applies to one header: the name equals
`Content-Range` (ASCII-case-insensitively) and the value parses to the
requested `(start, end)` pair. -/
def crHeaderMatches (start endv : Nat) (h : HttpHeader) : Bool :=
  eqIgnoreAsciiCase h.name ("Content-Range".toList) &&
    (match parseContentRange h.value with
     | some (rs, re, _) => rs == start && re == endv
     | none => false)

/-! ## Helper lemmas: CRC streaming -/

theorem crcUpdate_append (v : Nat) (a b : List Byte) :
    crcUpdate v (a ++ b) = crcUpdate (crcUpdate v a) b :=
  List.foldl_append ..

/-! ## Helper lemmas: remaining-length codec -/

theorem base128Digits_length_pos (v : Nat) : 0 < (base128Digits v).length := by
  rw [base128Digits]
  split <;> simp

theorem encode_remaining_length_eq_digits :
    ∀ v : Nat, ∀ buf : List Byte, buf.length + (base128Digits v).length ≤ 5 →
      encode_remaining_length buf v = some (buf ++ base128Digits v) := by
  intro v
  induction v using Nat.strong_induction_on with
  | _ v ih =>
    intro buf hlen
    have hpos := base128Digits_length_pos v
    rw [encode_remaining_length, if_neg (by omega)]
    by_cases h1 : v / 128 = 0
    · have hv : v < 128 := by omega
      rw [dif_pos h1, base128Digits, dif_pos hv, Nat.mod_eq_of_lt hv]
    · have hv : ¬ v < 128 := by omega
      rw [dif_neg h1]
      have hdig : base128Digits v = (v % 128 + 128) :: base128Digits (v / 128) := by
        rw [base128Digits, dif_neg hv]
      have hrec := ih (v / 128) (Nat.div_lt_self (by omega) (by omega))
        (buf ++ [v % 128 + 128])
        (by simp only [List.length_append, List.length_cons, hdig] at hlen ⊢; simp; omega)
      rw [hrec, hdig]
      simp

theorem base128Digits_length_eq :
    ∀ v : Nat, v < 268435456 → (base128Digits v).length = minRemLenBytes v := by
  intro v
  induction v using Nat.strong_induction_on with
  | _ v ih =>
    intro hv
    rw [base128Digits]
    split
    · next h1 => simp [minRemLenBytes, h1]
    · next h1 =>
      have hdiv : v / 128 < v := Nat.div_lt_self (by omega) (by omega)
      rw [List.length_cons, ih (v / 128) hdiv (by omega)]
      unfold minRemLenBytes
      split_ifs <;> omega

theorem decodeRemLenLoop_digits :
    ∀ v i acc : Nat, ∀ rest : List Byte, i + (base128Digits v).length ≤ 4 →
      decodeRemLenLoop (base128Digits v ++ rest) i acc (128 ^ i) =
        .ok (acc + v * 128 ^ i) rest := by
  intro v
  induction v using Nat.strong_induction_on with
  | _ v ih =>
    intro i acc rest hlen
    by_cases h1 : v < 128
    · have hd1 : base128Digits v = [v] := by rw [base128Digits, dif_pos h1]
      have hi : i + 1 ≤ 4 := by rw [hd1, List.length_singleton] at hlen; omega
      rw [hd1, List.cons_append, List.nil_append, decodeRemLenLoop,
        if_neg (show ¬ i ≥ 4 by omega)]
      have hb : v % 256 = v := Nat.mod_eq_of_lt (by omega)
      simp only [hb]
      rw [if_neg (show ¬ v ≥ 128 by omega), Nat.mod_eq_of_lt h1]
    · have hd1 : base128Digits v = (v % 128 + 128) :: base128Digits (v / 128) := by
        rw [base128Digits, dif_neg h1]
      have hi : i + 1 + (base128Digits (v / 128)).length ≤ 4 := by
        rw [hd1, List.length_cons] at hlen; omega
      rw [hd1, List.cons_append, decodeRemLenLoop, if_neg (show ¬ i ≥ 4 by omega)]
      have hm : v % 128 < 128 := Nat.mod_lt _ (by omega)
      have hb : (v % 128 + 128) % 256 = v % 128 + 128 := Nat.mod_eq_of_lt (by omega)
      simp only [hb]
      rw [if_pos (show v % 128 + 128 ≥ 128 by omega)]
      have hmod : (v % 128 + 128) % 128 = v % 128 := by omega
      rw [hmod]
      have hdiv : v / 128 < v := Nat.div_lt_self (by omega) (by omega)
      have hrec := ih (v / 128) hdiv (i + 1) (acc + v % 128 * 128 ^ i) rest (by omega)
      rw [show 128 ^ i * 128 = 128 ^ (i + 1) by ring, hrec]
      have hvm : v % 128 + 128 * (v / 128) = v := Nat.mod_add_div v 128
      congr 1
      conv_rhs => rw [← hvm]
      ring

/-! ## Helper lemmas: byte segments and contract writes -/

theorem seg_zero (s : List Byte) (off : Nat) : seg s off 0 = [] := by
  simp [seg]

theorem seg_split (s : List Byte) (a L n : Nat) (h : L ≤ n) :
    seg s a n = seg s a L ++ seg s (a + L) (n - L) := by
  unfold seg
  rw [show n = L + (n - L) by omega, List.take_add]
  congr 2
  · omega
  · rw [List.drop_drop]

theorem writeBytesList_length (s d : List Byte) (a : Nat)
    (h : a + d.length ≤ s.length) :
    (writeBytesList s a d).length = s.length := by
  simp [writeBytesList]
  omega

theorem writeBytesList_getElem?_lt (s d : List Byte) (a i : Nat) (hi : i < a)
    (h : a + d.length ≤ s.length) :
    (writeBytesList s a d)[i]? = s[i]? := by
  unfold writeBytesList
  rw [List.append_assoc,
    List.getElem?_append_left (by simp; omega),
    List.getElem?_take_of_lt hi]

theorem writeBytesList_seg (s d : List Byte) (a : Nat)
    (h : a + d.length ≤ s.length) :
    seg (writeBytesList s a d) a d.length = d := by
  unfold seg writeBytesList
  rw [List.append_assoc]
  generalize hteq : s.take a = t
  have h1 : t.length = a := by rw [← hteq]; simp; omega
  rw [← h1, List.drop_left, List.take_left]

theorem seg_congr (s s' : List Byte) (a n : Nat)
    (h : ∀ i, a ≤ i → i < a + n → s'[i]? = s[i]?) :
    seg s' a n = seg s a n := by
  apply List.ext_getElem?
  intro j
  by_cases hj : j < n
  · unfold seg
    rw [List.getElem?_take_of_lt hj, List.getElem?_take_of_lt hj,
      List.getElem?_drop, List.getElem?_drop]
    exact h (a + j) (by omega) (by omega)
  · unfold seg
    rw [List.getElem?_eq_none (le_trans (List.length_take_le _ _) (by omega)),
      List.getElem?_eq_none (le_trans (List.length_take_le _ _) (by omega))]

/-! ## Claim theorems: CRC-32 and MQTT codec -/

/-- C9: for every byte buffer `B` and every split point `k ≤ B.length`,
feeding `B` in one `update` call and feeding `B[0..k]` then `B[k..]` in two
`update` calls produce the same `finalize()` value on the CRC-32 engine
(streaming equivalence). -/
theorem crc32_streaming_equivalence (B : List Byte) (k : Nat)
    (hk : k ≤ B.length) :
    crcFinalize (crcUpdate (crcUpdate crcInit (B.take k)) (B.drop k)) =
      crcFinalize (crcUpdate crcInit B) := by
  rw [← crcUpdate_append, List.take_append_drop]

/-- Witness for C9 at `B = [3, 200, 7]`, `k = 1`. -/
theorem crc32_streaming_equivalence_witness :
    (1 : Nat) ≤ ([3, 200, 7] : List Byte).length ∧
    crcFinalize (crcUpdate (crcUpdate crcInit (([3, 200, 7] : List Byte).take 1))
        (([3, 200, 7] : List Byte).drop 1)) =
      crcFinalize (crcUpdate crcInit [3, 200, 7]) :=
  ⟨by decide, crc32_streaming_equivalence [3, 200, 7] 1 (by decide)⟩

/-- C7: for every `v < 2 ^ 28`, the MQTT remaining-length encoder (on an
empty buffer) succeeds and produces between 1 and 4 bytes — exactly the
minimum number — and the remaining-length decode loop of `Client::poll`
(started as in the code with `remaining_len = 0`, `multiplier = 1`, `i = 0`)
maps those bytes back to `v`, consuming exactly them (round-trip identity). -/
theorem mqtt_remaining_length_roundtrip (v : Nat) (hv : v < 2 ^ 28) :
    ∃ bs : List Byte,
      encode_remaining_length [] v = some bs ∧
      1 ≤ bs.length ∧ bs.length ≤ 4 ∧ bs.length = minRemLenBytes v ∧
      decodeRemLenLoop bs 0 0 1 = .ok v [] := by
  have hv' : v < 268435456 := by omega
  have hlen := base128Digits_length_eq v hv'
  have hle4 : (base128Digits v).length ≤ 4 := by
    rw [hlen]; unfold minRemLenBytes; split_ifs <;> omega
  refine ⟨base128Digits v, ?_, ?_, ?_, ?_, ?_⟩
  · simpa using encode_remaining_length_eq_digits v [] (by simp; omega)
  · exact base128Digits_length_pos v
  · exact hle4
  · exact hlen
  · simpa using decodeRemLenLoop_digits v 0 0 [] (by simpa using hle4)

/-- Witness for C7 at `v = 777`. -/
theorem mqtt_remaining_length_roundtrip_witness :
    (777 : Nat) < 2 ^ 28 ∧
    ∃ bs : List Byte,
      encode_remaining_length [] 777 = some bs ∧
      1 ≤ bs.length ∧ bs.length ≤ 4 ∧ bs.length = minRemLenBytes 777 ∧
      decodeRemLenLoop bs 0 0 1 = .ok 777 [] :=
  ⟨by norm_num, mqtt_remaining_length_roundtrip 777 (by norm_num)⟩

/-- C8 (code bug): when `poll` reads a PUBLISH fixed-header byte followed by
four remaining-length bytes that all have the continuation bit set, the
decode loop reaches `i = 4` and evaluates the slice
`remaining_len_buf[4..5]` of a `[u8; 4]` — an out-of-bounds index that
panics — instead of failing with the typed `ProtocolError` that the claim
(and the method's own error documentation) promise. The panic happens even
though a terminating fifth byte is available on the stream. -/
theorem poll_four_continuation_bytes_panic :
    pollHeaderPhase [0x30, 0x80, 0x80, 0x80, 0x80, 0x00] = .panicOOB ∧
    (PollOutcome.panicOOB ≠ .err .ProtocolError) ∧
    decodeRemLenLoop [0x80, 0x80, 0x80, 0x80] 0 0 1 = .panicOOB :=
  ⟨by decide, by decide, by decide⟩

/-- C10 (code bug): `Client::publish` `.unwrap()`s every buffer operation.
With a 1-byte topic and a 1024-byte payload — both within the documented
bounds (topic ≤ 256 bytes, payload ≤ 1024 bytes) — the 1024-byte packet
buffer overflows at `packet.extend_from_slice(payload).unwrap()` (the packet
needs `2 + 1 + 1024` bytes) and the process panics instead of returning the
typed error the claim (and the method's own error documentation) promise. -/
theorem publish_panics_within_documented_bounds :
    ([116] : List Byte).length ≤ 256 ∧
    (List.replicate 1024 (0 : Byte)).length ≤ 1024 ∧
    mqttPublishModel [116] (List.replicate 1024 0) .AtMostOnce true =
      .panicOverflow :=
  ⟨by decide, by simp, by decide⟩

/-! ## Helper lemmas: per-chunk response validation -/

theorem clampChunk_eq_take (resp : HttpResponse) (len : Nat) :
    clampChunk resp len = resp.body.take len := by
  unfold clampChunk
  rcases le_total resp.body.length len with h | h
  · rw [min_eq_left h, List.take_of_length_le h, List.take_of_length_le le_rfl]
  · rw [min_eq_right h]

theorem statusCheck206_ok_facts (resp : HttpResponse) (start endv size : Nat)
    (h : statusCheck206 resp start endv size = .ok ()) :
    resp.status_code = 206 ∧ (contentRangeScan resp.headers start endv).1 = true ∧
      ∀ t, (contentRangeScan resp.headers start endv).2 = some t → t = size := by
  unfold statusCheck206 at h
  split at h
  · next h206 =>
    split at h
    · next hscan =>
      refine ⟨h206, hscan, ?_⟩
      intro t ht
      split at h
      · next t' heq =>
        rw [heq] at ht
        injection ht with ht'
        subst ht'
        split at h
        · exact absurd h (by simp)
        · next hne => omega
      · next heq => rw [heq] at ht; exact absurd ht (by simp)
    · next hscan => exact absurd h (by simp)
  · next h206 => exact absurd h (by simp)

theorem statusCheck206_error_shape (resp : HttpResponse) (start endv size : Nat)
    (e : OtaError) (h : statusCheck206 resp start endv size = .error e) :
    e = .Network .ProtocolError := by
  unfold statusCheck206 at h
  split at h
  · split at h
    · split at h
      · split at h
        · injection h with h'; exact h'.symm
        · exact absurd h (by simp)
      · exact absurd h (by simp)
    · injection h with h'; exact h'.symm
  · injection h with h'; exact h'.symm

theorem validateChunkResponse_ok_facts (resp : HttpResponse)
    (start endv len size : Nat) (chunk : List Byte)
    (h : validateChunkResponse resp start endv len size = .ok chunk) :
    resp.status_code = 206 ∧ chunk = resp.body.take len ∧ chunk.length = len ∧
      0 < chunk.length ∧ statusCheck206 resp start endv size = .ok () := by
  unfold validateChunkResponse at h
  split at h
  · exact absurd h (by simp)
  · next u heq =>
    have heq' : statusCheck206 resp start endv size = .ok () := heq
    have hfacts := statusCheck206_ok_facts resp start endv size heq'
    split at h
    · exact absurd h (by simp)
    · next hlen0 =>
      split at h
      · exact absurd h (by simp)
      · next hcond =>
        injection h with h'
        subst h'
        have hlen : (clampChunk resp len).length = len := by
          by_contra hne
          exact hcond ⟨hfacts.1, hne⟩
        refine ⟨hfacts.1, ?_, hlen, by omega, heq'⟩
        rw [clampChunk_eq_take]

theorem validateChunkResponse_error_shape (resp : HttpResponse)
    (start endv len size : Nat) (e : OtaError)
    (h : validateChunkResponse resp start endv len size = .error e) :
    e = .Network .ProtocolError ∨ e = .Network .ReadError := by
  unfold validateChunkResponse at h
  split at h
  · next e' heq =>
    injection h with h'
    subst h'
    exact Or.inl (statusCheck206_error_shape resp start endv size e' heq)
  · split at h
    · injection h with h'; exact Or.inr h'.symm
    · split at h
      · injection h with h'; exact Or.inl h'.symm
      · exact absurd h (by simp)

theorem checkOffsets_ok_facts (base start chunkLen endOff absOff : Nat)
    (h : checkOffsets base start chunkLen endOff = .ok absOff) :
    absOff = base + start ∧ base + start + chunkLen ≤ endOff := by
  unfold checkOffsets at h
  split at h
  · exact absurd h (by simp)
  · split at h
    · exact absurd h (by simp)
    · split at h
      · exact absurd h (by simp)
      · split at h
        · exact absurd h (by simp)
        · next h4 =>
          injection h with h'
          exact ⟨h'.symm, by omega⟩

theorem checkOffsets_error_shape (base start chunkLen endOff : Nat) (e : OtaError)
    (h : checkOffsets base start chunkLen endOff = .error e) :
    e = .InvalidConfig := by
  unfold checkOffsets at h
  split at h
  · injection h with h'; exact h'.symm
  · split at h
    · injection h with h'; exact h'.symm
    · split at h
      · injection h with h'; exact h'.symm
      · split at h
        · injection h with h'; exact h'.symm
        · exact absurd h (by simp)

theorem requestWithRetry_ok (http : Nat → Except NetError HttpResponse)
    (k n : Nat) (resp : HttpResponse)
    (h : requestWithRetry http k = (.ok resp, n)) :
    ∃ j, http j = .ok resp := by
  unfold requestWithRetry at h
  split at h
  · next r heq =>
    injection h with h1 h2
    injection h1 with h1
    exact ⟨k, by rw [heq, h1]⟩
  · split at h
    · next r heq =>
      injection h with h1 h2
      injection h1 with h1
      exact ⟨k + 1, by rw [heq, h1]⟩
    · split at h
      · next r heq =>
        injection h with h1 h2
        injection h1 with h1
        exact ⟨k + 2, by rw [heq, h1]⟩
      · injection h with h1 h2
        exact absurd h1 (by simp)

/-! ## Helper lemmas: the Content-Range header scan -/

theorem contentRangeScan_fold_fst (start endv : Nat) :
    ∀ (headers : List HttpHeader) (acc : Bool × Option Nat),
      (headers.foldl
        (fun acc h =>
          if eqIgnoreAsciiCase h.name ("Content-Range".toList) then
            match parseContentRange h.value with
            | some (rs, re, total) => (acc.1 || (rs == start && re == endv), total)
            | none => acc
          else acc)
        acc).1 = (acc.1 || headers.any (crHeaderMatches start endv)) := by
  intro headers
  induction headers with
  | nil => intro acc; simp
  | cons h hs ih =>
    intro acc
    rw [List.foldl_cons, List.any_cons, ih]
    unfold crHeaderMatches
    by_cases hn : eqIgnoreAsciiCase h.name ("Content-Range".toList)
    · rw [if_pos hn, hn]
      rcases hp : parseContentRange h.value with _ | ⟨rs, re, t⟩
      · simp [hp]
      · simp [hp, Bool.or_assoc]
    · rw [if_neg hn]
      simp only [hn]
      simp

theorem contentRangeScan_fst_eq_any (headers : List HttpHeader) (start endv : Nat) :
    (contentRangeScan headers start endv).1 =
      headers.any (crHeaderMatches start endv) := by
  unfold contentRangeScan
  rw [contentRangeScan_fold_fst]
  simp

/-! ## Helper lemmas: the download loop -/

theorem loopIter_halt_inv (ctx : LoopCtx) (downloaded reqIdx writeIdx crc : Nat)
    (store : List Byte) (ops : List StorageOp) (pub : List OtaProgress)
    (r : LoopResult)
    (h : loopIter ctx downloaded reqIdx writeIdx crc store ops pub = .halt r) :
    ∃ e st store' ops' pub', r = .failed e st store' ops' pub' ∧
      (st = .Failed ∨ st = .Canceled ∨ (e = .Protocol ∧ st = .Downloading)) ∧
      e ≠ .VerifyFailed := by
  unfold loopIter at h
  split at h
  · injection h with h'
    exact ⟨_, _, _, _, _, h'.symm, Or.inr (Or.inl rfl), by simp⟩
  · split at h
    · injection h with h'
      exact ⟨_, _, _, _, _, h'.symm, Or.inr (Or.inr ⟨rfl, rfl⟩), by simp⟩
    · split at h
      · injection h with h'
        exact ⟨_, _, _, _, _, h'.symm, Or.inr (Or.inr ⟨rfl, rfl⟩), by simp⟩
      · split at h
        · injection h with h'
          exact ⟨_, _, _, _, _, h'.symm, Or.inr (Or.inr ⟨rfl, rfl⟩), by simp⟩
        · split at h
          · injection h with h'
            exact ⟨_, _, _, _, _, h'.symm, Or.inl rfl, by simp⟩
          · split at h
            · next e heq =>
              injection h with h'
              rcases validateChunkResponse_error_shape _ _ _ _ _ _ heq with he | he <;>
                exact ⟨_, _, _, _, _, h'.symm, Or.inl rfl, by subst he; simp⟩
            · split at h
              · next e heq =>
                injection h with h'
                have he := checkOffsets_error_shape _ _ _ _ _ heq
                exact ⟨_, _, _, _, _, h'.symm, Or.inl rfl, by subst he; simp⟩
              · split at h
                · exact absurd h (by simp)
                · injection h with h'
                  exact ⟨_, _, _, _, _, h'.symm, Or.inl rfl, by simp⟩

theorem loopIter_next_spec (ctx : LoopCtx) (downloaded reqIdx writeIdx crc : Nat)
    (store : List Byte) (ops : List StorageOp) (pub : List OtaProgress)
    (d2 r2 w2 c2 : Nat) (s2 : List Byte) (o2 : List StorageOp)
    (p2 : List OtaProgress)
    (h : loopIter ctx downloaded reqIdx writeIdx crc store ops pub =
      .next d2 r2 w2 c2 s2 o2 p2) :
    ∃ resp chunk,
      (∃ j, ctx.http j = .ok resp) ∧
      resp.status_code = 206 ∧
      chunk = resp.body.take chunk.length ∧
      chunk.length = chunkLen ctx downloaded ∧
      0 < chunk.length ∧
      d2 = downloaded + chunk.length ∧
      s2 = writeBytesList store (ctx.base + downloaded) chunk ∧
      o2 = ops ++ [.writeOp (ctx.base + downloaded) chunk] ∧
      ctx.base + downloaded + chunk.length ≤ store.length ∧
      c2 = crcUpdate crc chunk ∧
      p2 = pub ++
        (if ctx.mqttAttached then [⟨ctx.size, d2, .Downloading⟩] else []) := by
  unfold loopIter at h
  split at h
  · exact absurd h (by simp)
  · split at h
    · exact absurd h (by simp)
    · split at h
      · exact absurd h (by simp)
      · split at h
        · exact absurd h (by simp)
        · split at h
          · exact absurd h (by simp)
          · next resp reqIdx2 heqReq =>
            split at h
            · exact absurd h (by simp)
            · next chunk heqVal =>
              split at h
              · exact absurd h (by simp)
              · next absOff heqOff =>
                split at h
                · next hw =>
                  injection h with h1 h2 h3 h4 h5 h6 h7
                  have hvf := validateChunkResponse_ok_facts _ _ _ _ _ _ heqVal
                  have hof := checkOffsets_ok_facts _ _ _ _ _ heqOff
                  have hreq := requestWithRetry_ok ctx.http reqIdx reqIdx2 resp heqReq
                  refine ⟨resp, chunk, hreq, hvf.1, ?_, ?_, hvf.2.2.2.1,
                    by omega, ?_, ?_, ?_, by rw [← h4], ?_⟩
                  · conv_lhs => rw [hvf.2.1]
                    rw [hvf.2.2.1]
                  · exact hvf.2.2.1
                  · rw [← h5, hof.1]
                  · rw [← h6, hof.1]
                  · have := hw.2
                    rw [hof.1] at this
                    omega
                  · rw [← h7, ← h1]
                · exact absurd h (by simp)

theorem downloadLoop_failed_inv (ctx : LoopCtx) :
    ∀ (fuel downloaded reqIdx writeIdx crc : Nat) (store : List Byte)
      (ops : List StorageOp) (pub : List OtaProgress)
      (e : OtaError) (st : OtaState) (store' : List Byte)
      (ops' : List StorageOp) (pub' : List OtaProgress),
      downloadLoop ctx fuel downloaded reqIdx writeIdx crc store ops pub =
        .failed e st store' ops' pub' →
      (st = .Failed ∨ st = .Canceled ∨ (e = .Protocol ∧ st = .Downloading)) ∧
      e ≠ .VerifyFailed := by
  intro fuel
  induction fuel with
  | zero =>
    intro downloaded reqIdx writeIdx crc store ops pub e st store' ops' pub' h
    rw [downloadLoop] at h
    split at h
    · injection h with h1 h2 h3 h4 h5
      exact ⟨Or.inl h2.symm, by rw [← h1]; simp⟩
    · exact absurd h (by simp)
  | succ fuel' ih =>
    intro downloaded reqIdx writeIdx crc store ops pub e st store' ops' pub' h
    rw [downloadLoop] at h
    split at h
    · split at h
      · next r heq =>
        obtain ⟨e', st', s', o', p', hr, hprop, hvf⟩ :=
          loopIter_halt_inv ctx downloaded reqIdx writeIdx crc store ops pub r heq
        rw [hr] at h
        injection h with h1 h2 h3 h4 h5
        subst h1; subst h2
        exact ⟨hprop, hvf⟩
      · next d2 r2 w2 c2 s2 o2 p2 heq =>
        exact ih d2 r2 w2 c2 s2 o2 p2 e st store' ops' pub' h
    · exact absurd h (by simp)

theorem downloadLoop_done_inv (ctx : LoopCtx) :
    ∀ (fuel downloaded reqIdx writeIdx crc : Nat) (store : List Byte)
      (ops : List StorageOp) (pub : List OtaProgress)
      (crc' : Nat) (store' : List Byte) (ops' : List StorageOp)
      (pub' : List OtaProgress),
      downloadLoop ctx fuel downloaded reqIdx writeIdx crc store ops pub =
        .done crc' store' ops' pub' →
      ∃ pairs : List (Nat × List Byte),
        ops' = ops ++ pairs.map (fun q => StorageOp.writeOp q.1 q.2) ∧
        consecutiveFrom (ctx.base + downloaded) pairs ∧
        (pairs.map Prod.snd).join =
          seg store' (ctx.base + downloaded) (ctx.size - downloaded) ∧
        store'.length = store.length ∧
        (∀ i, i < ctx.base + downloaded → store'[i]? = store[i]?) ∧
        (∀ q ∈ pairs, ∃ j resp, ctx.http j = .ok resp ∧ resp.status_code = 206 ∧
          q.2 = resp.body.take q.2.length ∧ q.2 ≠ []) := by
  intro fuel
  induction fuel with
  | zero =>
    intro downloaded reqIdx writeIdx crc store ops pub crc' store' ops' pub' h
    rw [downloadLoop] at h
    split at h
    · exact absurd h (by simp)
    · next hge =>
      injection h with h1 h2 h3 h4
      subst h2; subst h3
      refine ⟨[], by simp, trivial, ?_, rfl, fun i _ => rfl, by simp⟩
      rw [show ctx.size - downloaded = 0 by omega, seg_zero]
      simp
  | succ fuel' ih =>
    intro downloaded reqIdx writeIdx crc store ops pub crc' store' ops' pub' h
    rw [downloadLoop] at h
    split at h
    · next hlt =>
      split at h
      · next r heq =>
        obtain ⟨e', st', s', o', p', hr, _, _⟩ :=
          loopIter_halt_inv ctx downloaded reqIdx writeIdx crc store ops pub r heq
        rw [hr] at h
        exact absurd h (by simp)
      · next d2 r2 w2 c2 s2 o2 p2 heq =>
        obtain ⟨resp, chunk, hreq, h206, hpref, hlen, hpos, hd2, hs2, ho2, hbound,
          hc2, hp2⟩ := loopIter_next_spec ctx downloaded reqIdx writeIdx crc
            store ops pub d2 r2 w2 c2 s2 o2 p2 heq
        obtain ⟨pairs', hops', hconsec', hjoin', hlen', hframe', hresp'⟩ :=
          ih d2 r2 w2 c2 s2 o2 p2 crc' store' ops' pub' h
        have hLle : chunk.length ≤ ctx.size - downloaded := by
          rw [hlen]; unfold chunkLen; omega
        refine ⟨(ctx.base + downloaded, chunk) :: pairs', ?_, ?_, ?_, ?_, ?_, ?_⟩
        · rw [hops', ho2]
          simp
        · exact ⟨rfl, by rw [show ctx.base + downloaded + chunk.length =
            ctx.base + d2 by omega]; exact hconsec'⟩
        · show chunk ++ (pairs'.map Prod.snd).join =
            seg store' (ctx.base + downloaded) (ctx.size - downloaded)
          rw [seg_split store' (ctx.base + downloaded) chunk.length
              (ctx.size - downloaded) hLle]
          have hseg1 : seg store' (ctx.base + downloaded) chunk.length = chunk := by
            have hbound2 : ctx.base + downloaded + chunk.length ≤ s2.length := by
              rw [hs2, writeBytesList_length store chunk (ctx.base + downloaded) hbound]
              exact hbound
            have hcongr : seg store' (ctx.base + downloaded) chunk.length =
                seg s2 (ctx.base + downloaded) chunk.length := by
              apply seg_congr
              intro i hi1 hi2
              exact hframe' i (by omega)
            rw [hcongr, hs2]
            exact writeBytesList_seg store chunk (ctx.base + downloaded) hbound
          rw [hseg1, hjoin', hd2]
          congr 2
          · omega
          · omega
        · rw [hlen', hs2, writeBytesList_length store chunk (ctx.base + downloaded) hbound]
        · intro i hi
          rw [hframe' i (by omega), hs2,
            writeBytesList_getElem?_lt store chunk (ctx.base + downloaded) i hi
              (by omega)]
        · intro q hq
          rcases List.mem_cons.mp hq with hq1 | hq2
          · subst hq1
            refine ⟨hreq.choose, resp, hreq.choose_spec, h206, ?_, ?_⟩
            · show chunk = resp.body.take chunk.length
              exact hpref
            · show chunk ≠ []
              intro hnil
              rw [hnil] at hpos
              simp at hpos
          · exact hresp' q hq2
    · next hge =>
      injection h with h1 h2 h3 h4
      subst h2; subst h3
      refine ⟨[], by simp, trivial, ?_, rfl, fun i _ => rfl, by simp⟩
      rw [show ctx.size - downloaded = 0 by omega, seg_zero]
      simp

theorem eraseBytesList_length (s : List Byte) (f t : Nat) (h1 : f ≤ t)
    (h2 : t ≤ s.length) : (eraseBytesList s f t).length = s.length := by
  simp [eraseBytesList]
  omega

theorem writeOpsOf_append (a b : List StorageOp) :
    writeOpsOf (a ++ b) = writeOpsOf a ++ writeOpsOf b :=
  List.filterMap_append ..

theorem writeOpsOf_map_write (pairs : List (Nat × List Byte)) :
    writeOpsOf (pairs.map (fun q => StorageOp.writeOp q.1 q.2)) = pairs := by
  induction pairs with
  | nil => rfl
  | cons q qs ih =>
    show (q.1, q.2) :: writeOpsOf (qs.map (fun q => StorageOp.writeOp q.1 q.2)) =
      q :: qs
    rw [ih]

theorem afterLoop_done_store_ops (size : Nat) (attached verify : Bool)
    (crcExpected : Option Nat) (crc : Nat) (s : List Byte) (o : List StorageOp)
    (p : List OtaProgress) :
    (afterLoop size attached verify crcExpected (.done crc s o p)).store = s ∧
    (afterLoop size attached verify crcExpected (.done crc s o p)).ops = o := by
  unfold afterLoop
  dsimp only
  split
  · split
    · split
      · exact ⟨rfl, rfl⟩
      · exact ⟨rfl, rfl⟩
    · exact ⟨rfl, rfl⟩
  · exact ⟨rfl, rfl⟩

theorem afterLoop_ok_inv (size : Nat) (attached verify : Bool)
    (crcExpected : Option Nat) (lr : LoopResult)
    (h : (afterLoop size attached verify crcExpected lr).result = .ok ()) :
    ∃ crc s o p, lr = .done crc s o p := by
  cases lr with
  | failed e st s o p => exact absurd h (by simp [afterLoop])
  | done crc s o p => exact ⟨crc, s, o, p, rfl⟩

theorem afterLoop_error_inv (size : Nat) (attached verify : Bool)
    (crcExpected : Option Nat) (lr : LoopResult) (e : OtaError)
    (h : (afterLoop size attached verify crcExpected lr).result = .error e) :
    (∃ st s o p, lr = .failed e st s o p ∧
      (afterLoop size attached verify crcExpected lr).state = st) ∨
    (e = .VerifyFailed ∧
      (afterLoop size attached verify crcExpected lr).state = .Failed ∧
      ∃ crc s o p, lr = .done crc s o p ∧
        (afterLoop size attached verify crcExpected lr).published =
          p ++ (if attached then [⟨size, size, .Failed⟩] else [])) := by
  cases lr with
  | failed e' st s o p =>
    left
    have he : e' = e := by
      have : (Except.error e' : Except OtaError Unit) = .error e := h
      injection this
    subst he
    exact ⟨st, s, o, p, rfl, rfl⟩
  | done crc s o p =>
    right
    unfold afterLoop at h ⊢
    dsimp only at h ⊢
    cases verify
    · exact absurd h (by simp [finishOk])
    · cases crcExpected with
      | none => exact absurd h (by simp [finishOk])
      | some exp =>
        dsimp only at h ⊢
        by_cases hm : crcFinalize crc ≠ exp
        · rw [if_pos hm] at h ⊢
          have he : e = .VerifyFailed := by
            have h2 : (Except.error .VerifyFailed : Except OtaError Unit) = .error e := h
            injection h2 with h'
            exact h'.symm
          exact ⟨he, rfl, crc, s, o, p, rfl, rfl⟩
        · rw [if_neg hm] at h
          exact absurd h (by simp [finishOk])

theorem erasePhase_error_inv (ota : Ota) (store0 : List Byte) (base : Nat)
    (source : HttpSource) (env : RunEnv) (r : CoreResult)
    (h : erasePhase ota store0 base source env = .error r) :
    (r.result = .error .Canceled ∧ r.state = .Canceled) ∨
    (r.result = .error (.Storage .EraseError) ∧ r.state = .Failed) := by
  unfold erasePhase at h
  split at h
  · split at h
    · injection h with h'
      subst h'
      exact Or.inl ⟨rfl, rfl⟩
    · split at h
      · exact absurd h (by simp)
      · injection h with h'
        subst h'
        exact Or.inr ⟨rfl, rfl⟩
  · exact absurd h (by simp)

theorem erasePhase_ok_inv (ota : Ota) (store0 : List Byte) (base : Nat)
    (source : HttpSource) (env : RunEnv) (s1 : List Byte) (o1 : List StorageOp)
    (h : erasePhase ota store0 base source env = .ok (s1, o1)) :
    s1.length = store0.length ∧ writeOpsOf o1 = [] := by
  unfold erasePhase at h
  split at h
  · split at h
    · exact absurd h (by simp)
    · split at h
      · next hc =>
        injection h with h'
        injection h' with h1 h2
        subst h1; subst h2
        exact ⟨eraseBytesList_length store0 base _ hc.2.1 hc.2.2, rfl⟩
      · exact absurd h (by simp)
  · injection h with h'
    injection h' with h1 h2
    subst h1; subst h2
    exact ⟨rfl, rfl⟩

/-! ## Claim theorems: OTA engine -/

/-- C2 (amended): every error return of `run_http` leaves the engine in the
terminal state Failed or Canceled, with exactly the two exceptions present
in the code: the checked-arithmetic overflow rejections of the preflight
(lines 212–218) return InvalidConfig without touching the state, and the
per-chunk header-construction failures (lines 258–277) return
`Error::Protocol` with the state left at Downloading. The capacity
rejection and every other error path do set Failed (or Canceled). -/
theorem runHttp_error_terminal_state (ota : Ota) (store0 : List Byte)
    (base : Nat) (source : HttpSource) (env : RunEnv) (record0 : OtaRecord)
    (e : OtaError)
    (h : (runHttp ota store0 base source env record0).result = .error e) :
    (runHttp ota store0 base source env record0).state = .Failed ∨
    (runHttp ota store0 base source env record0).state = .Canceled ∨
    (e = .Protocol ∧
      (runHttp ota store0 base source env record0).state = .Downloading) ∨
    (e = .InvalidConfig ∧
      (runHttp ota store0 base source env record0).state = ota.state) := by
  have key : ∀ e', (runHttpCore ota store0 base source env).result = .error e' →
      ((runHttpCore ota store0 base source env).state = .Failed ∨
       (runHttpCore ota store0 base source env).state = .Canceled ∨
       (e' = .Protocol ∧
         (runHttpCore ota store0 base source env).state = .Downloading) ∨
       (e' = .InvalidConfig ∧
         (runHttpCore ota store0 base source env).state = ota.state)) := by
    unfold runHttpCore
    split
    · intro e' _
      exact Or.inl rfl
    · split
      · intro e' h'
        have h2 : (Except.error .InvalidConfig : Except OtaError Unit) =
          .error e' := h'
        injection h2 with h3
        exact Or.inr (Or.inr (Or.inr ⟨h3.symm, rfl⟩))
      · split
        · intro e' _
          exact Or.inl rfl
        · split
          · intro e' _
            exact Or.inr (Or.inl rfl)
          · split
            · next r heq =>
              intro e' _
              rcases erasePhase_error_inv _ _ _ _ _ _ heq with ⟨_, h2⟩ | ⟨_, h2⟩
              · exact Or.inr (Or.inl h2)
              · exact Or.inl h2
            · next s1 o1 _ =>
              intro e' h'
              rcases afterLoop_error_inv _ _ _ _ _ _ h' with
                ⟨st, s, o, p, hlr, hst⟩ | ⟨_, hst, _⟩
              · have hinv :=
                  downloadLoop_failed_inv _ _ _ _ _ _ _ _ _ _ _ _ _ _ hlr
                rcases hinv.1 with h1 | h1 | ⟨h1, h2⟩
                · exact Or.inl (by rw [hst, h1])
                · exact Or.inr (Or.inl (by rw [hst, h1]))
                · exact Or.inr (Or.inr (Or.inl ⟨h1, by rw [hst, h2]⟩))
              · exact Or.inl hst
  exact key e h

/-- Witness for C2 at a concrete error run (a host longer than 256 bytes). -/
theorem runHttp_error_terminal_state_witness :
    (runHttp ⟨⟨1, false, false⟩, .Idle, false⟩ [0] 0
        ⟨List.replicate 257 'a', "/f".toList, 1, none⟩
        ⟨fun _ => .error .Timeout, true, fun _ => true, false⟩
        ⟨.Idle, 0, 0⟩).state = .Failed ∨
    (runHttp ⟨⟨1, false, false⟩, .Idle, false⟩ [0] 0
        ⟨List.replicate 257 'a', "/f".toList, 1, none⟩
        ⟨fun _ => .error .Timeout, true, fun _ => true, false⟩
        ⟨.Idle, 0, 0⟩).state = .Canceled ∨
    (OtaError.Protocol = .Protocol ∧
      (runHttp ⟨⟨1, false, false⟩, .Idle, false⟩ [0] 0
        ⟨List.replicate 257 'a', "/f".toList, 1, none⟩
        ⟨fun _ => .error .Timeout, true, fun _ => true, false⟩
        ⟨.Idle, 0, 0⟩).state = .Downloading) ∨
    (OtaError.Protocol = .InvalidConfig ∧
      (runHttp ⟨⟨1, false, false⟩, .Idle, false⟩ [0] 0
        ⟨List.replicate 257 'a', "/f".toList, 1, none⟩
        ⟨fun _ => .error .Timeout, true, fun _ => true, false⟩
        ⟨.Idle, 0, 0⟩).state = (Ota.mk ⟨1, false, false⟩ .Idle false).state) :=
  runHttp_error_terminal_state _ _ _ _ _ _ .Protocol (by decide)

/-- C2 counterexample: on a run whose firmware host is 257 bytes long, the
`Host` header construction fails; `run_http` returns `Error::Protocol` while
`state()` is Downloading — neither Failed nor Canceled, so an error return
does not always leave a terminal state. -/
theorem runHttp_error_nonterminal_counterexample :
    let res := runHttp ⟨⟨1, false, false⟩, .Idle, false⟩ [0] 0
        ⟨List.replicate 257 'a', "/f".toList, 1, none⟩
        ⟨fun _ => .error .Timeout, true, fun _ => true, false⟩ ⟨.Idle, 0, 0⟩
    res.result = .error .Protocol ∧ res.state = .Downloading ∧
      res.state ≠ .Failed ∧ res.state ≠ .Canceled := by
  decide

/-- C3 (amended): when `run_http` fails with VerifyFailed (the CRC-32
mismatch path), the engine state is Failed, a progress message with state
`"failed"` (and `bytes = total = size`) is the last one handed to the
publisher whenever one is attached — and the OTA-persistent record is left
untouched: `run_http` contains no code that writes any such record (zeroing
version/checksum included). -/
theorem runHttp_verify_failure_effects (ota : Ota) (store0 : List Byte)
    (base : Nat) (source : HttpSource) (env : RunEnv) (record0 : OtaRecord)
    (h : (runHttp ota store0 base source env record0).result =
      .error .VerifyFailed) :
    (runHttp ota store0 base source env record0).state = .Failed ∧
    (runHttp ota store0 base source env record0).record = record0 ∧
    stateToStr .Failed = "failed".toList ∧
    (env.mqttAttached = true →
      ∃ ps, (runHttp ota store0 base source env record0).published =
        ps ++ [⟨source.size, source.size, .Failed⟩]) := by
  have key : (runHttpCore ota store0 base source env).result =
      .error .VerifyFailed →
      ((runHttpCore ota store0 base source env).state = .Failed ∧
       (env.mqttAttached = true →
         ∃ ps, (runHttpCore ota store0 base source env).published =
           ps ++ [⟨source.size, source.size, .Failed⟩])) := by
    unfold runHttpCore
    split
    · intro h'
      have h2 : (Except.error .InvalidConfig : Except OtaError Unit) =
        .error .VerifyFailed := h'
      exact absurd h2 (by simp)
    · split
      · intro h'
        have h2 : (Except.error .InvalidConfig : Except OtaError Unit) =
          .error .VerifyFailed := h'
        exact absurd h2 (by simp)
      · split
        · intro h'
          have h2 : (Except.error .InvalidConfig : Except OtaError Unit) =
            .error .VerifyFailed := h'
          exact absurd h2 (by simp)
        · split
          · intro h'
            have h2 : (Except.error .Canceled : Except OtaError Unit) =
              .error .VerifyFailed := h'
            exact absurd h2 (by simp)
          · split
            · next r heq =>
              intro h'
              rcases erasePhase_error_inv _ _ _ _ _ _ heq with ⟨h1, _⟩ | ⟨h1, _⟩ <;>
                · rw [h'] at h1
                  simp at h1
            · next s1 o1 _ =>
              intro h'
              rcases afterLoop_error_inv _ _ _ _ _ _ h' with
                ⟨st, s, o, p, hlr, _⟩ | ⟨_, hst, crc, s, o, p, _, hpub⟩
              · have hinv :=
                  downloadLoop_failed_inv _ _ _ _ _ _ _ _ _ _ _ _ _ _ hlr
                exact absurd rfl hinv.2
              · refine ⟨hst, ?_⟩
                intro hat
                rw [hpub, if_pos hat]
                exact ⟨p, rfl⟩
  have hkey := key h
  exact ⟨hkey.1, rfl, rfl, hkey.2⟩

/-- Witness for C3 at a concrete CRC-mismatch run. -/
theorem runHttp_verify_failure_effects_witness :
    (runHttp ⟨⟨1, false, true⟩, .Idle, false⟩ [0] 0
        ⟨"h".toList, "/f".toList, 1, some 0⟩
        ⟨fun _ => .ok ⟨206, [⟨"Content-Range".toList, "bytes 0-0/1".toList⟩], [5]⟩,
         true, fun _ => true, true⟩ ⟨.Idle, 7, 99⟩).state = .Failed ∧
    (runHttp ⟨⟨1, false, true⟩, .Idle, false⟩ [0] 0
        ⟨"h".toList, "/f".toList, 1, some 0⟩
        ⟨fun _ => .ok ⟨206, [⟨"Content-Range".toList, "bytes 0-0/1".toList⟩], [5]⟩,
         true, fun _ => true, true⟩ ⟨.Idle, 7, 99⟩).record = ⟨.Idle, 7, 99⟩ ∧
    stateToStr .Failed = "failed".toList ∧
    ((⟨fun _ => .ok ⟨206, [⟨"Content-Range".toList, "bytes 0-0/1".toList⟩], [5]⟩,
       true, fun _ => true, true⟩ : RunEnv).mqttAttached = true →
      ∃ ps, (runHttp ⟨⟨1, false, true⟩, .Idle, false⟩ [0] 0
        ⟨"h".toList, "/f".toList, 1, some 0⟩
        ⟨fun _ => .ok ⟨206, [⟨"Content-Range".toList, "bytes 0-0/1".toList⟩], [5]⟩,
         true, fun _ => true, true⟩ ⟨.Idle, 7, 99⟩).published =
        ps ++ [⟨(1 : Nat), (1 : Nat), .Failed⟩]) :=
  runHttp_verify_failure_effects _ _ _ _ _ _ (by decide)

/-- C3 counterexample: a concrete CRC-mismatch run publishes the failed
progress message, sets state Failed and returns VerifyFailed — but the
OTA-persistent record (here starting as `⟨Idle, 7, 99⟩`) is *not* set to
Failed with zeroed version and checksum: `run_http` never touches it. -/
theorem runHttp_verify_failure_record_counterexample :
    let res := runHttp ⟨⟨1, false, true⟩, .Idle, false⟩ [0] 0
        ⟨"h".toList, "/f".toList, 1, some 0⟩
        ⟨fun _ => .ok ⟨206, [⟨"Content-Range".toList, "bytes 0-0/1".toList⟩], [5]⟩,
         true, fun _ => true, true⟩ ⟨.Idle, 7, 99⟩
    res.result = .error .VerifyFailed ∧ res.state = .Failed ∧
      res.published = [⟨1, 1, .Downloading⟩, ⟨1, 1, .Failed⟩] ∧
      res.record = ⟨.Idle, 7, 99⟩ ∧
      res.record ≠ ⟨.Failed, 0, 0⟩ := by
  decide

/-- C6 (amended): if `cancel()` was called before `run_http` and the source
passes the preflight validation (`size ≥ 1`, no overflow, fits in the
storage capacity), the run performs no storage operation at all, returns
Canceled, and leaves the engine in state Canceled. (Preflight-invalid
sources take precedence: they fail with InvalidConfig even when cancel was
requested — see the counterexample.) -/
theorem runHttp_cancel_before_erase (ota : Ota) (store0 : List Byte)
    (base : Nat) (source : HttpSource) (env : RunEnv) (record0 : OtaRecord)
    (hsz : 1 ≤ source.size) (hov : base + source.size < 2 ^ 64)
    (hfit : base + source.size ≤ store0.length) (hc : ota.canceled = true) :
    runHttp ota store0 base source env record0 =
      ⟨.error .Canceled, .Canceled, store0, [], [], record0⟩ := by
  unfold runHttp runHttpCore
  rw [if_neg (show ¬ source.size = 0 by omega),
    if_neg (show ¬ 2 ^ 64 ≤ base + source.size from not_le_of_lt hov),
    if_neg (show ¬ store0.length < base + source.size from not_lt_of_le hfit),
    if_pos hc]

/-- Witness for C6 at a concrete canceled run with a valid source. -/
theorem runHttp_cancel_before_erase_witness :
    runHttp ⟨⟨1, true, true⟩, .Idle, true⟩ [170] 0 ⟨"h".toList, "/f".toList, 1, none⟩
        ⟨fun _ => .error .Timeout, true, fun _ => true, false⟩ ⟨.Idle, 0, 0⟩ =
      ⟨.error .Canceled, .Canceled, [170], [], [], ⟨.Idle, 0, 0⟩⟩ :=
  runHttp_cancel_before_erase _ _ _ _ _ _ (by decide) (by decide) (by decide) rfl

/-- C6 counterexample: with `cancel()` latched *and* a preflight-invalid
source (`size = 0`), `run_http` never reaches the erase phase yet returns
InvalidConfig with state Failed — not Canceled — because the preflight
checks run before the cancellation check. -/
theorem runHttp_cancel_preflight_counterexample :
    let res := runHttp ⟨⟨1, true, true⟩, .Idle, true⟩ [0] 0
        ⟨"h".toList, "/f".toList, 0, none⟩
        ⟨fun _ => .error .Timeout, true, fun _ => true, false⟩ ⟨.Idle, 0, 0⟩
    res.result = .error .InvalidConfig ∧ res.result ≠ .error .Canceled ∧
      res.state = .Failed ∧ res.state ≠ .Canceled ∧ res.ops = [] := by
  decide

/-- C1 (amended): for every valid firmware source (`size ≥ 1`,
`base_offset + size ≤ storage.capacity()`) and every chunk size in
[1, 2048], if `run_http` returns Ok then the storage bytes in
`[base_offset, base_offset + size)` are the byte-exact concatenation, in
increasing offset order, of the chunks written — and each written chunk is
the prefix (first `len` bytes, `len` the chunk's requested length) of the
body of a successful 206 range response. Bodies longer than the requested
length are truncated before being written (line 336), so the region equals
the concatenation of the *full* bodies exactly when every body has exactly
the requested length — see the counterexample. -/
theorem runHttp_success_storage_bytes (ota : Ota) (store0 : List Byte)
    (base : Nat) (source : HttpSource) (env : RunEnv) (record0 : OtaRecord)
    (hcs1 : 1 ≤ ota.cfg.chunk_size) (hcs2 : ota.cfg.chunk_size ≤ 2048)
    (hsz : 1 ≤ source.size) (hfit : base + source.size ≤ store0.length)
    (hok : (runHttp ota store0 base source env record0).result = .ok ()) :
    consecutiveFrom base
      (writeOpsOf (runHttp ota store0 base source env record0).ops) ∧
    ((writeOpsOf (runHttp ota store0 base source env record0).ops).map
        Prod.snd).join =
      seg (runHttp ota store0 base source env record0).store base source.size ∧
    (∀ q ∈ writeOpsOf (runHttp ota store0 base source env record0).ops,
      ∃ j resp, env.http j = .ok resp ∧ resp.status_code = 206 ∧
        q.2 = resp.body.take q.2.length ∧ q.2 ≠ []) := by
  have key : (runHttpCore ota store0 base source env).result = .ok () →
      (consecutiveFrom base
        (writeOpsOf (runHttpCore ota store0 base source env).ops) ∧
      ((writeOpsOf (runHttpCore ota store0 base source env).ops).map
          Prod.snd).join =
        seg (runHttpCore ota store0 base source env).store base source.size ∧
      (∀ q ∈ writeOpsOf (runHttpCore ota store0 base source env).ops,
        ∃ j resp, env.http j = .ok resp ∧ resp.status_code = 206 ∧
          q.2 = resp.body.take q.2.length ∧ q.2 ≠ [])) := by
    unfold runHttpCore
    split
    · intro h'
      have h2 : (Except.error .InvalidConfig : Except OtaError Unit) = .ok () := h'
      exact absurd h2 (by simp)
    · split
      · intro h'
        have h2 : (Except.error .InvalidConfig : Except OtaError Unit) = .ok () := h'
        exact absurd h2 (by simp)
      · split
        · intro h'
          have h2 : (Except.error .InvalidConfig : Except OtaError Unit) = .ok () := h'
          exact absurd h2 (by simp)
        · split
          · intro h'
            have h2 : (Except.error .Canceled : Except OtaError Unit) = .ok () := h'
            exact absurd h2 (by simp)
          · split
            · next r heq =>
              intro h'
              rcases erasePhase_error_inv _ _ _ _ _ _ heq with ⟨h1, _⟩ | ⟨h1, _⟩ <;>
                · rw [h'] at h1
                  simp at h1
            · next s1 o1 heq =>
              intro h'
              obtain ⟨crc, s, o, p, hlr⟩ := afterLoop_ok_inv _ _ _ _ _ h'
              obtain ⟨_, ho1⟩ := erasePhase_ok_inv _ _ _ _ _ _ _ heq
              rw [hlr]
              have hfields := afterLoop_done_store_ops source.size
                env.mqttAttached ota.cfg.verify_crc32 source.crc32 crc s o p
              rw [hfields.1, hfields.2]
              obtain ⟨pairs, hops, hconsec, hjoin, _, _, hresp⟩ :=
                downloadLoop_done_inv _ _ _ _ _ _ _ _ _ _ _ _ _ hlr
              rw [hops, writeOpsOf_append, ho1, writeOpsOf_map_write,
                List.nil_append]
              refine ⟨?_, ?_, ?_⟩
              · simpa using hconsec
              · simpa using hjoin
              · exact hresp
  exact ⟨(key hok).1, (key hok).2.1, (key hok).2.2⟩

/-- Witness for C1 at a concrete successful single-chunk run. -/
theorem runHttp_success_storage_bytes_witness :
    consecutiveFrom 0 (writeOpsOf (runHttp ⟨⟨1, true, true⟩, .Idle, false⟩ [170] 0
      ⟨"h".toList, "/f".toList, 1, none⟩
      ⟨fun _ => .ok ⟨206, [⟨"Content-Range".toList, "bytes 0-0/1".toList⟩], [7]⟩,
       true, fun _ => true, false⟩ ⟨.Idle, 0, 0⟩).ops) ∧
    ((writeOpsOf (runHttp ⟨⟨1, true, true⟩, .Idle, false⟩ [170] 0
      ⟨"h".toList, "/f".toList, 1, none⟩
      ⟨fun _ => .ok ⟨206, [⟨"Content-Range".toList, "bytes 0-0/1".toList⟩], [7]⟩,
       true, fun _ => true, false⟩ ⟨.Idle, 0, 0⟩).ops).map Prod.snd).join =
      seg (runHttp ⟨⟨1, true, true⟩, .Idle, false⟩ [170] 0
      ⟨"h".toList, "/f".toList, 1, none⟩
      ⟨fun _ => .ok ⟨206, [⟨"Content-Range".toList, "bytes 0-0/1".toList⟩], [7]⟩,
       true, fun _ => true, false⟩ ⟨.Idle, 0, 0⟩).store 0 1 ∧
    (∀ q ∈ writeOpsOf (runHttp ⟨⟨1, true, true⟩, .Idle, false⟩ [170] 0
      ⟨"h".toList, "/f".toList, 1, none⟩
      ⟨fun _ => .ok ⟨206, [⟨"Content-Range".toList, "bytes 0-0/1".toList⟩], [7]⟩,
       true, fun _ => true, false⟩ ⟨.Idle, 0, 0⟩).ops,
      ∃ j resp,
        (fun _ : Nat => (.ok ⟨206, [⟨"Content-Range".toList, "bytes 0-0/1".toList⟩],
          [7]⟩ : Except NetError HttpResponse)) j = .ok resp ∧
        resp.status_code = 206 ∧ q.2 = resp.body.take q.2.length ∧ q.2 ≠ []) :=
  runHttp_success_storage_bytes _ _ _ _ _ _ (by decide) (by decide) (by decide)
    (by decide) (by decide)

/-- C1 counterexample: a 206 response whose body is longer than the
requested length is accepted — the write stores only the first `len` bytes.
Here the single requested chunk has length 1 but the 206 body is `[5, 6]`:
the run succeeds, storage `[0, 1)` holds `[5]`, and the concatenation of
the 206 response bodies is `[5, 6]` — not equal to the stored region. -/
theorem runHttp_body_truncation_counterexample :
    let resp : HttpResponse :=
      ⟨206, [⟨"Content-Range".toList, "bytes 0-0/1".toList⟩], [5, 6]⟩
    let res := runHttp ⟨⟨1, true, true⟩, .Idle, false⟩ [170] 0
        ⟨"h".toList, "/f".toList, 1, none⟩
        ⟨fun _ => .ok resp, true, fun _ => true, false⟩ ⟨.Idle, 0, 0⟩
    res.result = .ok () ∧ res.state = .Completed ∧
      res.ops = [.eraseOp 0 1, .writeOp 0 [5]] ∧
      seg res.store 0 1 = [5] ∧ resp.body = [5, 6] ∧
      resp.status_code = 206 ∧ seg res.store 0 1 ≠ resp.body := by
  decide

theorem loopIter_validation_error_failed (ctx : LoopCtx)
    (downloaded reqIdx writeIdx crc : Nat) (store : List Byte)
    (ops : List StorageOp) (pub : List OtaProgress)
    (resp : HttpResponse) (n : Nat) (e : OtaError)
    (hc : ctx.canceled = false)
    (hhost : utf8Len ctx.host ≤ 256)
    (hrange : (rangeValueString downloaded
      (inclusiveEnd downloaded (chunkLen ctx downloaded))).length ≤ 80)
    (hreq : requestWithRetry ctx.http reqIdx = (.ok resp, n))
    (hval : validateChunkResponse resp downloaded
      (inclusiveEnd downloaded (chunkLen ctx downloaded))
      (chunkLen ctx downloaded) ctx.size = .error e) :
    loopIter ctx downloaded reqIdx writeIdx crc store ops pub =
      .halt (.failed e .Failed store ops pub) := by
  unfold loopIter
  rw [if_neg (show ¬ ctx.canceled = true by simp [hc]),
    if_neg (show ¬ utf8Len ctx.host > 256 by omega),
    if_neg (show ¬ (rangeValueString downloaded
      (inclusiveEnd downloaded (chunkLen ctx downloaded))).length > 80 by omega),
    if_neg (show ¬ (rangeValueString downloaded
      (inclusiveEnd downloaded (chunkLen ctx downloaded))).length > 256 by omega),
    hreq]
  dsimp only
  rw [hval]

/-- C4 (amended): per-chunk response checks of `run_http`. A status other
than exactly 206 — in particular a 200 full-body response — is rejected with
`Network(ProtocolError)` unconditionally: the `_ =>` arm of the status match
never consults the `Content-Range` headers. For a 206 response whose
`Content-Range` data passes the scan (isolating the length dimension): an
empty body (clamped to the requested length `len`) is rejected with
`Network(ReadError)` — not ProtocolError as claimed; a non-empty body
shorter than `len` is rejected with `Network(ProtocolError)`; and a body of
length ≥ `len` is *accepted*, truncated to its first `len` bytes. The final
conjunct shows the download loop turns every such validation error into
`.failed e .Failed`: the run returns the error with the engine state
Failed. -/
theorem chunk_status_and_length_checks (resp : HttpResponse)
    (start endv len size : Nat) :
    (resp.status_code ≠ 206 →
      validateChunkResponse resp start endv len size =
        .error (.Network .ProtocolError)) ∧
    (resp.status_code = 206 →
      (contentRangeScan resp.headers start endv).1 = true →
      (∀ t, (contentRangeScan resp.headers start endv).2 = some t →
        t = size) →
      ((resp.body = [] ∨ len = 0) →
        validateChunkResponse resp start endv len size =
          .error (.Network .ReadError)) ∧
      (0 < resp.body.length → resp.body.length < len →
        validateChunkResponse resp start endv len size =
          .error (.Network .ProtocolError)) ∧
      (0 < len → len ≤ resp.body.length →
        validateChunkResponse resp start endv len size =
          .ok (resp.body.take len))) ∧
    (∀ (ctx : LoopCtx) (downloaded reqIdx writeIdx crc n : Nat)
        (store : List Byte) (ops : List StorageOp) (pub : List OtaProgress)
        (e : OtaError),
      ctx.canceled = false → utf8Len ctx.host ≤ 256 →
      (rangeValueString downloaded
        (inclusiveEnd downloaded (chunkLen ctx downloaded))).length ≤ 80 →
      requestWithRetry ctx.http reqIdx = (.ok resp, n) →
      validateChunkResponse resp downloaded
        (inclusiveEnd downloaded (chunkLen ctx downloaded))
        (chunkLen ctx downloaded) ctx.size = .error e →
      loopIter ctx downloaded reqIdx writeIdx crc store ops pub =
        .halt (.failed e .Failed store ops pub)) := by
  have hclen : (clampChunk resp len).length = min resp.body.length len := by
    simp [clampChunk]
  refine ⟨?_, ?_, ?_⟩
  · intro hne
    unfold validateChunkResponse statusCheck206
    rw [if_neg hne]
  · intro h206 hcr1 hcr2
    have hsc : statusCheck206 resp start endv size = .ok () := by
      unfold statusCheck206
      rw [if_pos h206, if_pos hcr1]
      rcases hsc2 : (contentRangeScan resp.headers start endv).2 with _ | t
      · rfl
      · have ht := hcr2 t hsc2
        simp only [hsc2]
        rw [if_neg (by omega)]
    refine ⟨?_, ?_, ?_⟩
    · intro hempty
      unfold validateChunkResponse
      rw [hsc]
      dsimp only
      rw [if_pos (show (clampChunk resp len).length = 0 by
        rcases hempty with h1 | h1 <;> (rw [hclen]; simp [h1]))]
    · intro hpos hlt
      unfold validateChunkResponse
      rw [hsc]
      dsimp only
      rw [if_neg (show ¬ (clampChunk resp len).length = 0 by rw [hclen]; omega),
        if_pos (show resp.status_code = 206 ∧ (clampChunk resp len).length ≠ len by
          exact ⟨h206, by rw [hclen]; omega⟩)]
    · intro hlen0 hle
      unfold validateChunkResponse
      rw [hsc]
      dsimp only
      rw [if_neg (show ¬ (clampChunk resp len).length = 0 by rw [hclen]; omega),
        if_neg (show ¬ (resp.status_code = 206 ∧ (clampChunk resp len).length ≠ len) by
          rw [hclen]
          intro hc
          exact hc.2 (by omega)),
        clampChunk_eq_take]
  · intro ctx downloaded reqIdx writeIdx crc n store ops pub e hc hh hr hq hv
    exact loopIter_validation_error_failed ctx downloaded reqIdx writeIdx crc
      store ops pub resp n e hc hh hr hq hv

/-- Witness for C4: a 200 full-body response *without* any `Content-Range`
header is rejected with `Network(ProtocolError)` (the unconditional non-206
conjunct), and a 206 response with a valid matching `Content-Range` and a
2-byte body for a 1-byte request is accepted, truncated to its first byte. -/
theorem chunk_status_and_length_checks_witness :
    validateChunkResponse ⟨200, [], [7, 8]⟩ 0 0 1 1 =
      .error (.Network .ProtocolError) ∧
    validateChunkResponse
      ⟨206, [⟨"Content-Range".toList, "bytes 0-0/1".toList⟩], [7, 8]⟩ 0 0 1 1 =
      .ok (([7, 8] : List Byte).take 1) :=
  ⟨(chunk_status_and_length_checks ⟨200, [], [7, 8]⟩ 0 0 1 1).1 (by decide),
   ((chunk_status_and_length_checks
       ⟨206, [⟨"Content-Range".toList, "bytes 0-0/1".toList⟩], [7, 8]⟩
       0 0 1 1).2.1 rfl (by decide) (by decide)).2.2 (by decide) (by decide)⟩

/-- C4 counterexample: a 206 response with a valid matching `Content-Range`
but an *empty* body makes the run fail with `Network(ReadError)` — not the
`Network(ProtocolError)` the claim promises for every body-length
mismatch (the engine state does become Failed). -/
theorem chunk_empty_body_readerror_counterexample :
    let res := runHttp ⟨⟨1, false, false⟩, .Idle, false⟩ [0] 0
        ⟨"h".toList, "/f".toList, 1, none⟩
        ⟨fun _ => .ok ⟨206, [⟨"Content-Range".toList, "bytes 0-0/1".toList⟩], []⟩,
         true, fun _ => true, false⟩ ⟨.Idle, 0, 0⟩
    res.result = .error (.Network .ReadError) ∧
      res.result ≠ .error (.Network .ProtocolError) ∧
      res.state = .Failed := by
  decide

/-- C5 (amended): the `Content-Range` requirement of a 206 chunk response:
the scan flag is exactly "some header named `Content-Range`
(case-insensitively) parses to the requested `(start, end)`" — *at least
one*, duplicates allowed (the code folds over all headers and any match
sets the flag, see the counterexample for two accepted duplicates); if no
header matches (in particular if no `Content-Range` header is present at
all), validation fails with `Network(ProtocolError)`; and if the numeric
total kept from the last parsed header differs from the firmware size,
validation fails with `Network(ProtocolError)`. The final conjunct shows
the download loop turns every such validation error into
`.failed e .Failed`: the run returns the error with the engine state
Failed. -/
theorem content_range_requirement (resp : HttpResponse)
    (start endv len size : Nat) (h206 : resp.status_code = 206) :
    ((contentRangeScan resp.headers start endv).1 =
      resp.headers.any (crHeaderMatches start endv)) ∧
    ((contentRangeScan resp.headers start endv).1 = false →
      validateChunkResponse resp start endv len size =
        .error (.Network .ProtocolError)) ∧
    (∀ t, (contentRangeScan resp.headers start endv).2 = some t → t ≠ size →
      validateChunkResponse resp start endv len size =
        .error (.Network .ProtocolError)) ∧
    ((∀ hd ∈ resp.headers,
        eqIgnoreAsciiCase hd.name ("Content-Range".toList) = false) →
      (contentRangeScan resp.headers start endv).1 = false) ∧
    (∀ (ctx : LoopCtx) (downloaded reqIdx writeIdx crc n : Nat)
        (store : List Byte) (ops : List StorageOp) (pub : List OtaProgress)
        (e : OtaError),
      ctx.canceled = false → utf8Len ctx.host ≤ 256 →
      (rangeValueString downloaded
        (inclusiveEnd downloaded (chunkLen ctx downloaded))).length ≤ 80 →
      requestWithRetry ctx.http reqIdx = (.ok resp, n) →
      validateChunkResponse resp downloaded
        (inclusiveEnd downloaded (chunkLen ctx downloaded))
        (chunkLen ctx downloaded) ctx.size = .error e →
      loopIter ctx downloaded reqIdx writeIdx crc store ops pub =
        .halt (.failed e .Failed store ops pub)) := by
  refine ⟨contentRangeScan_fst_eq_any _ _ _, ?_, ?_, ?_, ?_⟩
  · intro hfalse
    unfold validateChunkResponse statusCheck206
    rw [if_pos h206, if_neg (show ¬ (contentRangeScan resp.headers start endv).1 =
      true by rw [hfalse]; simp)]
  · intro t ht htne
    unfold validateChunkResponse statusCheck206
    rw [if_pos h206]
    by_cases hfst : (contentRangeScan resp.headers start endv).1 = true
    · rw [if_pos hfst]
      simp only [ht]
      rw [if_pos htne]
    · rw [if_neg hfst]
  · intro hnone
    rw [contentRangeScan_fst_eq_any]
    rw [List.any_eq_false]
    intro hd hmem
    unfold crHeaderMatches
    rw [hnone hd hmem]
    simp
  · intro ctx downloaded reqIdx writeIdx crc n store ops pub e hc hh hr hq hv
    exact loopIter_validation_error_failed ctx downloaded reqIdx writeIdx crc
      store ops pub resp n e hc hh hr hq hv

/-- Witness for C5 at a concrete 206 response. -/
theorem content_range_requirement_witness :
    ((contentRangeScan [⟨"X".toList, "1".toList⟩] 0 0).1 =
      ([⟨"X".toList, "1".toList⟩] : List HttpHeader).any (crHeaderMatches 0 0)) ∧
    ((contentRangeScan [⟨"X".toList, "1".toList⟩] 0 0).1 = false →
      validateChunkResponse ⟨206, [⟨"X".toList, "1".toList⟩], [7]⟩ 0 0 1 1 =
        .error (.Network .ProtocolError)) ∧
    (∀ t, (contentRangeScan [⟨"X".toList, "1".toList⟩] 0 0).2 = some t →
      t ≠ 1 →
      validateChunkResponse ⟨206, [⟨"X".toList, "1".toList⟩], [7]⟩ 0 0 1 1 =
        .error (.Network .ProtocolError)) ∧
    ((∀ hd ∈ ([⟨"X".toList, "1".toList⟩] : List HttpHeader),
        eqIgnoreAsciiCase hd.name ("Content-Range".toList) = false) →
      (contentRangeScan [⟨"X".toList, "1".toList⟩] 0 0).1 = false) ∧
    (∀ (ctx : LoopCtx) (downloaded reqIdx writeIdx crc n : Nat)
        (store : List Byte) (ops : List StorageOp) (pub : List OtaProgress)
        (e : OtaError),
      ctx.canceled = false → utf8Len ctx.host ≤ 256 →
      (rangeValueString downloaded
        (inclusiveEnd downloaded (chunkLen ctx downloaded))).length ≤ 80 →
      requestWithRetry ctx.http reqIdx =
        (.ok ⟨206, [⟨"X".toList, "1".toList⟩], [7]⟩, n) →
      validateChunkResponse ⟨206, [⟨"X".toList, "1".toList⟩], [7]⟩
        downloaded (inclusiveEnd downloaded (chunkLen ctx downloaded))
        (chunkLen ctx downloaded) ctx.size = .error e →
      loopIter ctx downloaded reqIdx writeIdx crc store ops pub =
        .halt (.failed e .Failed store ops pub)) :=
  content_range_requirement ⟨206, [⟨"X".toList, "1".toList⟩], [7]⟩ 0 0 1 1
    (by decide)

/-- C5 counterexample: a 206 response carrying *two* identical valid
`Content-Range` headers is accepted and the run completes successfully —
"exactly one Content-Range header" is not enforced; having more than one
does not make the run fail. -/
theorem duplicate_content_range_accepted_counterexample :
    let resp : HttpResponse :=
      ⟨206, [⟨"Content-Range".toList, "bytes 0-0/1".toList⟩,
             ⟨"Content-Range".toList, "bytes 0-0/1".toList⟩], [7]⟩
    let res := runHttp ⟨⟨1, false, false⟩, .Idle, false⟩ [0] 0
        ⟨"h".toList, "/f".toList, 1, none⟩
        ⟨fun _ => .ok resp, true, fun _ => true, false⟩ ⟨.Idle, 0, 0⟩
    resp.headers.countP
        (fun hd => eqIgnoreAsciiCase hd.name ("Content-Range".toList)) = 2 ∧
      res.result = .ok () ∧ res.state = .Completed ∧ seg res.store 0 1 = [7] := by
  decide

/-- The fuel value handed to `downloadLoop` is irrelevant from
`ctx.size - downloaded` upward: every continuing iteration advances
`downloaded` by at least one byte, so `run_http`'s choice `fuel = size`
always suffices and the zero-fuel branch of the embedding is unreachable
from `runHttpCore`. -/
theorem downloadLoop_fuel_ge (ctx : LoopCtx) :
    ∀ (fuel1 fuel2 downloaded reqIdx writeIdx crc : Nat) (store : List Byte)
      (ops : List StorageOp) (pub : List OtaProgress),
      ctx.size - downloaded ≤ fuel1 → ctx.size - downloaded ≤ fuel2 →
      downloadLoop ctx fuel1 downloaded reqIdx writeIdx crc store ops pub =
        downloadLoop ctx fuel2 downloaded reqIdx writeIdx crc store ops pub := by
  intro fuel1
  induction fuel1 with
  | zero =>
    intro fuel2 downloaded reqIdx writeIdx crc store ops pub h1 h2
    have hnd : ¬ downloaded < ctx.size := by omega
    conv_lhs => rw [downloadLoop.eq_def]
    conv_rhs => rw [downloadLoop.eq_def]
    dsimp only
    rw [if_neg hnd, if_neg hnd]
  | succ fuel1' ih =>
    intro fuel2 downloaded reqIdx writeIdx crc store ops pub h1 h2
    by_cases hlt : downloaded < ctx.size
    · cases fuel2 with
      | zero => omega
      | succ fuel2' =>
        conv_lhs => rw [downloadLoop.eq_def]
        conv_rhs => rw [downloadLoop.eq_def]
        dsimp only
        rw [if_pos hlt, if_pos hlt]
        rcases hstep : loopIter ctx downloaded reqIdx writeIdx crc store ops pub
          with r | ⟨d2, r2, w2, c2, s2, o2, p2⟩
        · simp only []
        · simp only []
          obtain ⟨resp, chunk, _, _, _, _, hpos, hd2, _, _, _, _, _⟩ :=
            loopIter_next_spec ctx downloaded reqIdx writeIdx crc store ops pub
              d2 r2 w2 c2 s2 o2 p2 hstep
          exact ih fuel2' d2 r2 w2 c2 s2 o2 p2 (by omega) (by omega)
    · conv_lhs => rw [downloadLoop.eq_def]
      conv_rhs => rw [downloadLoop.eq_def]
      dsimp only
      rw [if_neg hlt, if_neg hlt]
